import Mathlib

/-!
Verification of the SmartCity traffic-processing core.

Shallow embedding of `src/HTTPVideoProcessingFunction/processing.py`
(class `VehicleTracker` and the end-of-clip aggregation of
`process_video_clip`) and of the tracking/speed/alert loop of
`src/BlobVideoProcessingFunction/processing.py`.

Modelling conventions:
* pixel coordinates are `ℤ` (the Python code builds centroids with integer
  arithmetic: `x + w // 2` on `int` boxes);
* frame times are exact rationals `ℚ`;
* floating-point speeds and distances are modelled as exact reals `ℝ`,
  with `np.hypot`/`np.linalg.norm` as `Real.sqrt` of the sum of squares;
* a Python dict is an insertion-ordered association list; writing to an
  existing key updates in place, writing a fresh key appends;
* the one observable effect of `logger.warning` in the speed-alert branch
  is modelled as an emitted `Alert` value.
-/

namespace Traffic

/-! ## Constants (processing.py lines 22-30) -/

def DASHED_LINE_DISTANCE : ℚ := 20

def MIN_SPEED_THRESHOLD : ℚ := 5

def MAX_SPEED_THRESHOLD : ℚ := 200

def PIXELS_DASHED_LINE : ℚ := 245

def PIXELS_PER_METER : ℚ := PIXELS_DASHED_LINE / DASHED_LINE_DISTANCE

def SPEED_SMOOTHING_WINDOW : ℕ := 3

/-- Euclidean length of the pixel vector `(dx, dy)`; this is `np.hypot`. -/
noncomputable def hypot (dx dy : ℤ) : ℝ :=
  Real.sqrt ((dx : ℝ) ^ 2 + (dy : ℝ) ^ 2)

/-! ## Data model -/

/-- One detection `(x, y, w, h, confidence, class_id)` as consumed by
`VehicleTracker.update` (line 59). -/
structure Det where
  x : ℤ
  y : ℤ
  w : ℤ
  h : ℤ
  conf : ℝ
  class_id : ℕ

/-- One tracked vehicle: the per-track dict built at lines 122-131.
The `speed` key is absent until the first valid sample, hence `Option`. -/
structure Track where
  id : ℕ
  vtype : String
  last_position : ℤ × ℤ × ℚ
  positions : List (ℤ × ℤ × ℚ)
  speed_history : List ℝ
  speed : Option ℝ
  matched : Bool
  alerted : Bool
  confidence : ℝ

/-- The content of the speed-alert log record of lines 90-93. -/
structure Alert where
  track_id : ℕ
  vtype : String
  speed : ℝ
  timestamp : ℚ
  position : ℤ × ℤ

/-- One per-frame result record (lines 108-116). -/
structure VehicleRec where
  id : ℕ
  vtype : String
  direction : String
  speed : ℝ
  timestamp : ℚ
  position : ℤ × ℤ
  confidence : ℝ

/-- The persistent tracker state: `self.tracked_vehicles` (an
insertion-ordered dict, modelled as an association list) and
`self.next_id`.  The constructor also creates `self.available_ids`,
`self.alerted_vehicles` and `self.max_speeds`, but none of them is ever
read or written by `update`, so they are omitted. -/
structure TrackerState where
  tracked_vehicles : List (ℕ × Track)
  next_id : ℕ

/-- `VehicleTracker.__init__` (lines 34-40). -/
def initState : TrackerState :=
  { tracked_vehicles := [], next_id := 1 }

/-- The mutable locals of one `update` call while the detection loop runs:
`old` is `self.tracked_vehicles` (mutated in place when a matched track is
updated), `upd` is `updated_vehicles`, plus the id counter, the `results`
list and the alerts emitted so far. -/
structure FoldState where
  old : List (ℕ × Track)
  upd : List (ℕ × Track)
  next_id : ℕ
  results : List VehicleRec
  alerts : List Alert

def idsOf (l : List (ℕ × Track)) : List ℕ := l.map Prod.fst

/-! ## The matcher scan (lines 62-71) -/

/-- The distance of line 68: `np.hypot(cx - lx, cy - ly)` where
`(lx, ly, lt)` is the track's `last_position`. -/
noncomputable def candDist (cx cy : ℤ) (p : ℕ × Track) : ℝ :=
  hypot (cx - p.2.last_position.1) (cy - p.2.last_position.2.1)

/-- One iteration of the candidate scan `for vid, v in self.tracked_vehicles.items()`:
skip matched tracks, then test the time gate, the distance gate and the
running minimum (initially `float('inf')`, modelled as `none`). -/
noncomputable def scanStep (t : ℚ) (cx cy : ℤ)
    (acc : Option (ℕ × Track) × Option ℝ) (p : ℕ × Track) :
    Option (ℕ × Track) × Option ℝ :=
  if p.2.matched then acc
  else
    let dist := candDist cx cy p
    if t - p.2.last_position.2.2 < 1 then
      if dist < 100 then
        match acc with
        | (_, some m) => if dist < m then (some p, some dist) else acc
        | (_, none) => (some p, some dist)
      else acc
    else acc

/-- The whole scan of lines 62-71; the first component is `matched_id`
together with the matched track object. -/
noncomputable def findMatch (store : List (ℕ × Track)) (cx cy : ℤ) (t : ℚ) :
    Option (ℕ × Track) × Option ℝ :=
  store.foldl (scanStep t cx cy) (none, none)

/-! ## The speed estimator and alert emitter (lines 76-94) -/

/-- The raw speed sample of lines 78-82:
`(pixel_dist / PIXELS_PER_METER / t_elapsed) * 3.6`. -/
noncomputable def speedSample (px py : ℤ) (pt : ℚ) (cx cy : ℤ) (t : ℚ) : ℝ :=
  let pixels := hypot (cx - px) (cy - py)
  let meters := pixels / (PIXELS_PER_METER : ℝ)
  meters / ((t - pt : ℚ) : ℝ) * 3.6

/-- Lines 76-94: starting from the second-to-last position (which at this
point is `positions[-1]`), guard the elapsed time, compute the sample,
apply the plausibility band, fold an accepted sample into the bounded
history and the smoothed mean, and fire the one-shot alert.  Returns the
updated track and the alert just emitted, if any. -/
noncomputable def speedAlert (vid : ℕ) (v : Track) (cx cy : ℤ) (t : ℚ) :
    Track × Option Alert :=
  match v.positions.getLast? with
  | none => (v, none)
  | some q =>
    if 0 < t - q.2.2 then
      let speed_kmh := speedSample q.1 q.2.1 q.2.2 cx cy t
      if (MIN_SPEED_THRESHOLD : ℝ) < speed_kmh ∧ speed_kmh < (MAX_SPEED_THRESHOLD : ℝ) then
        let hist0 := v.speed_history ++ [speed_kmh]
        let hist := if SPEED_SMOOTHING_WINDOW < hist0.length then hist0.tail else hist0
        let sp := hist.sum / (hist.length : ℝ)
        let v1 : Track := { v with speed_history := hist, speed := some sp }
        if 130 < sp ∧ v1.alerted = false then
          ({ v1 with alerted := true },
           some { track_id := vid, vtype := v.vtype, speed := sp,
                  timestamp := t, position := (cx, cy) })
        else (v1, none)
      else (v, none)
    else (v, none)

/-! ## Per-frame result emission (lines 100-116) -/

/-- The direction expression of lines 103-107, verbatim. -/
def direction (dx dy : ℤ) : String :=
  if (|dx| > |dy| ∧ dx < 0) ∨ (|dy| ≥ |dx| ∧ dy < 0) then "inbound" else "outbound"

/-- Lines 100-116: emit a result record when the track has a `speed` key
and at least 3 recorded positions.  `dx`/`dy` are taken between
`positions[-1]` and `positions[0]`; the guard makes the list nonempty, so
the `getLastD`/`headD` defaults are never used. -/
def emitResult (vid : ℕ) (v : Track) (cx cy : ℤ) (t : ℚ) (conf : ℝ) :
    Option VehicleRec :=
  match v.speed with
  | none => none
  | some sp =>
    if 3 ≤ v.positions.length then
      let dx := (v.positions.getLastD (0, 0, 0)).1 - (v.positions.headD (0, 0, 0)).1
      let dy := (v.positions.getLastD (0, 0, 0)).2.1 - (v.positions.headD (0, 0, 0)).2.1
      some { id := vid, vtype := v.vtype, direction := direction dx dy, speed := sp,
             timestamp := t, position := (cx, cy), confidence := conf }
    else none

/-! ## The detection loop body (lines 59-131) -/

/-- The state of a matched track after lines 75-97: flagged, with the
speed/alert block applied and the new position pushed. -/
noncomputable def matchedTrack (t : ℚ) (cx cy : ℤ) (vid : ℕ) (v0 : Track) : Track :=
  let pa := speedAlert vid { v0 with matched := true } cx cy t
  { pa.1 with
    last_position := (cx, cy, t)
    positions := pa.1.positions ++ [(cx, cy, t)] }

/-- The matched branch, lines 73-116: flag the track, run the speed/alert
block, push the new position (lines 96-97), store the track object both
in `updated_vehicles` and (by aliasing) in `self.tracked_vehicles`, and
possibly emit a result record. -/
noncomputable def applyMatch (t : ℚ) (cx cy : ℤ) (conf : ℝ)
    (vid : ℕ) (v0 : Track) (fs : FoldState) : FoldState :=
  let v2 := matchedTrack t cx cy vid v0
  { old := fs.old.map fun p => if p.1 = vid then (vid, v2) else p
    upd := fs.upd ++ [(vid, v2)]
    next_id := fs.next_id
    results := fs.results ++ (emitResult vid v2 cx cy t conf).toList
    alerts := fs.alerts ++ (speedAlert vid { v0 with matched := true } cx cy t).2.toList }

/-- The unmatched branch, lines 118-131: allocate `self.next_id`, build a
fresh track and install it into `updated_vehicles` only. -/
def spawnTrack (t : ℚ) (cx cy : ℤ) (conf : ℝ) (class_id : ℕ)
    (fs : FoldState) : FoldState :=
  let nt : Track :=
    { id := fs.next_id
      vtype := if class_id = 2 then "car" else "truck"
      last_position := (cx, cy, t)
      positions := [(cx, cy, t)]
      speed_history := []
      speed := none
      matched := true
      alerted := false
      confidence := conf }
  { fs with upd := fs.upd ++ [(fs.next_id, nt)], next_id := fs.next_id + 1 }

/-- Centroid of a detection: `cx, cy = x + w // 2, y + h // 2` with Python
floor division (line 60). -/
def centroid (d : Det) : ℤ × ℤ := (d.x + Int.fdiv d.w 2, d.y + Int.fdiv d.h 2)

/-- One iteration of `for x, y, w, h, conf, class_id in detections`. -/
noncomputable def processDet (t : ℚ) (fs : FoldState) (d : Det) : FoldState :=
  let c := centroid d
  match (findMatch fs.old c.1 c.2 t).1 with
  | some mv => applyMatch t c.1 c.2 d.conf mv.1 mv.2 fs
  | none => spawnTrack t c.1 c.2 d.conf d.class_id fs

/-- Lines 56-57: every existing track is first flagged unmatched. -/
def markUnmatched (store : List (ℕ × Track)) : List (ℕ × Track) :=
  store.map fun p => (p.1, { p.2 with matched := false })

/-- The state of the locals right before the detection loop starts. -/
def initFold (s : TrackerState) : FoldState :=
  { old := markUnmatched s.tracked_vehicles, upd := [], next_id := s.next_id,
    results := [], alerts := [] }

/-- The whole detection loop of one `update` call. -/
noncomputable def matchPhase (t : ℚ) (s : TrackerState) (dets : List Det) : FoldState :=
  dets.foldl (processDet t) (initFold s)

/-- Lines 133-136: keep every unmatched track whose last position is less
than 3 seconds old, appending it after the already collected
`updated_vehicles`. -/
def keepStale (t : ℚ) (upd old : List (ℕ × Track)) : List (ℕ × Track) :=
  old.foldl
    (fun acc p =>
      if p.2.matched = false ∧ t - p.2.last_position.2.2 < 3 then acc ++ [p] else acc)
    upd

/-- `VehicleTracker.update` (lines 42-139): returns the new tracker state,
the per-frame result records, and the alerts emitted during the frame.
The `frame_height` argument of the Python method is never used by its body
and is omitted. -/
noncomputable def update (s : TrackerState) (dets : List Det) (t : ℚ) :
    TrackerState × List VehicleRec × List Alert :=
  let fs := matchPhase t s dets
  ({ tracked_vehicles := keepStale t fs.upd fs.old, next_id := fs.next_id },
   fs.results, fs.alerts)

/-! ## Runs over many frames -/

/-- Fold `update` over a clip, given as a list of (detections, frame time)
pairs; collects all result records and alerts in order. -/
noncomputable def runTracker (s : TrackerState) :
    List (List Det × ℚ) → TrackerState × List VehicleRec × List Alert
  | [] => (s, [], [])
  | f :: rest =>
    let r1 := update s f.1 f.2
    let r2 := runTracker r1.1 rest
    (r2.1, r1.2.1 ++ r2.2.1, r1.2.2 ++ r2.2.2)

/-- The tracker state after a list of frames. -/
noncomputable def stateAt (s : TrackerState) (frames : List (List Det × ℚ)) :
    TrackerState :=
  frames.foldl (fun st f => (update st f.1 f.2).1) s

/-- States reachable from a fresh tracker by `update` calls. -/
inductive Reachable : TrackerState → Prop
  | init : Reachable initState
  | step {s : TrackerState} (dets : List Det) (t : ℚ) :
      Reachable s → Reachable (update s dets t).1

def trackedIds (s : TrackerState) : List ℕ := idsOf s.tracked_vehicles

/-! ## End-of-clip aggregation (process_video_clip, lines 228-235) -/

/-- One iteration of the dedup loop: `unique_vehicles` is an insertion
ordered dict; overwriting a key keeps its position. -/
noncomputable def aggStep (acc : List (ℕ × VehicleRec)) (r : VehicleRec) :
    List (ℕ × VehicleRec) :=
  match acc.lookup r.id with
  | none => acc ++ [(r.id, r)]
  | some cur =>
    if cur.speed < r.speed then
      acc.map fun p => if p.1 = r.id then (r.id, r) else p
    else acc

/-- Lines 228-235: `unique_vehicles` filtering, then `list(unique_vehicles.values())`. -/
noncomputable def aggregate (recs : List VehicleRec) : List VehicleRec :=
  (recs.foldl aggStep []).map Prod.snd

/-! ## The Blob variant (BlobVideoProcessingFunction/processing.py) -/

/-- `estimate_speed` (Blob lines 22-26). -/
noncomputable def estimate_speed (distance_m time_s : ℝ) : ℝ :=
  if time_s = 0 then 0 else distance_m / time_s * 3.6

/-- Class `Vehicle` of the Blob variant (lines 13-20). -/
structure BVehicle where
  id : ℕ
  bbox : ℤ × ℤ × ℤ × ℤ
  vehicle_type : String
  positions : List (ℤ × ℤ)
  speed_kmh : ℝ
  counted : Bool

/-- The observable content of one Blob alert message (id and speed
interpolated into the string at line 119). -/
structure BAlert where
  id : ℕ
  speed : ℝ

/-- The mutable loop state of the Blob `process_video_clip`. -/
structure BlobState where
  vehicles : List (ℕ × BVehicle)
  vehicle_id_counter : ℕ
  speed_violations_count : ℕ
  high_speed_alerts : List BAlert

def blobInit : BlobState :=
  { vehicles := [], vehicle_id_counter := 0, speed_violations_count := 0,
    high_speed_alerts := [] }

/-- Blob lines 77-85: scan the vehicle dict in order for the first vehicle
whose last centroid is within 50 px, update it in place and break.
Returns `none` when no vehicle matched. -/
noncomputable def blobMatchVehicle (c : ℤ × ℤ) (bbox : ℤ × ℤ × ℤ × ℤ) :
    List (ℕ × BVehicle) → Option (List (ℕ × BVehicle))
  | [] => none
  | p :: rest =>
    match p.2.positions.getLast? with
    | some lp =>
      if hypot (c.1 - lp.1) (c.2 - lp.2) < 50 then
        some ((p.1, { p.2 with positions := p.2.positions ++ [c], bbox := bbox }) :: rest)
      else
        match blobMatchVehicle c bbox rest with
        | some rest2 => some (p :: rest2)
        | none => none
    | none =>
      match blobMatchVehicle c bbox rest with
      | some rest2 => some (p :: rest2)
      | none => none

/-- Blob lines 75-91: one detection through the matching loop; an
unmatched detection allocates `vehicle_id_counter + 1` and appends a fresh
`Vehicle` whose positions list holds just the new centroid. -/
noncomputable def blobMatchStep (st : BlobState) (d : (ℤ × ℤ) × (ℤ × ℤ × ℤ × ℤ)) :
    BlobState :=
  match blobMatchVehicle d.1 d.2 st.vehicles with
  | some vs => { st with vehicles := vs }
  | none =>
    let nid := st.vehicle_id_counter + 1
    { st with
        vehicle_id_counter := nid
        vehicles := st.vehicles ++
          [(nid, { id := nid, bbox := d.2, vehicle_type := "car",
                   positions := [d.1], speed_kmh := 0, counted := false })] }

/-- Blob lines 94-121: the per-frame speed/violation/alert pass over every
vehicle with at least two positions.  `pixel_to_meter = 0.1` and
`time_s = 1 / FRAME_RATE` with `FRAME_RATE = 25`. -/
noncomputable def blobSpeedStep (acc : BlobState) (p : ℕ × BVehicle) : BlobState :=
  let v := p.2
  if 2 ≤ v.positions.length then
    let p1 := v.positions.getD (v.positions.length - 2) (0, 0)
    let p2 := v.positions.getD (v.positions.length - 1) (0, 0)
    let pixel_distance := hypot (p2.1 - p1.1) (p2.2 - p1.2)
    let distance_m := pixel_distance * (1 / 10)
    let time_s : ℝ := 1 / 25
    let sp := estimate_speed distance_m time_s
    let speed_limit : ℝ := if v.vehicle_type = "car" then 90 else 80
    let v2 : BVehicle := { v with speed_kmh := sp }
    let acc1 := { acc with vehicles := acc.vehicles ++ [(p.1, v2)] }
    let acc2 :=
      if speed_limit < sp then
        { acc1 with speed_violations_count := acc1.speed_violations_count + 1 }
      else acc1
    if 130 < sp then
      { acc2 with high_speed_alerts := acc2.high_speed_alerts ++ [⟨v.id, sp⟩] }
    else acc2
  else { acc with vehicles := acc.vehicles ++ [p] }

/-- One frame of the Blob loop: matching pass, then the speed pass over
the whole vehicle dict. -/
noncomputable def blobFrame (st : BlobState) (ds : List ((ℤ × ℤ) × (ℤ × ℤ × ℤ × ℤ))) :
    BlobState :=
  let st1 := ds.foldl blobMatchStep st
  st1.vehicles.foldl blobSpeedStep { st1 with vehicles := [] }

/-- The Blob loop over a whole clip. -/
noncomputable def blobRun (st : BlobState) :
    List (List ((ℤ × ℤ) × (ℤ × ℤ × ℤ × ℤ))) → BlobState
  | [] => st
  | f :: rest => blobRun (blobFrame st f) rest

/-! ## Derived definitions used by the statements -/

/-- The per-track speed invariant: the history is bounded by the
smoothing window, and the `speed` key is absent exactly until the first
valid sample, after which it is the arithmetic mean of the history. -/
def TrackOK (v : Track) : Prop :=
  v.speed_history.length ≤ SPEED_SMOOTHING_WINDOW ∧
    (match v.speed with
     | none => v.speed_history = []
     | some sp => v.speed_history ≠ [] ∧ sp = v.speed_history.sum / (v.speed_history.length : ℝ))

/-- Direction rule as the specification words it: the axis with the larger
absolute displacement decides, negative displacement on that axis means
inbound, non-negative means outbound. -/
def specDirection (dx dy : ℤ) : String :=
  if |dy| < |dx| then (if dx < 0 then "inbound" else "outbound")
  else (if dy < 0 then "inbound" else "outbound")

/-- A track passing the matcher gates for the detection centroid
`(cx, cy)` at frame time `t`: currently unmatched, seen less than 1 s
ago, and closer than 100 px. -/
noncomputable def gatedCandidate (cx cy : ℤ) (t : ℚ) (p : ℕ × Track) : Bool :=
  !p.2.matched &&
    decide (t - p.2.last_position.2.2 < 1) &&
    decide (candDist cx cy p < 100)

/-- Number of alerts carrying a given track id. -/
def countA (id : ℕ) (l : List Alert) : ℕ := l.countP fun a => a.track_id == id

/-- The id of the track a detection is routed to by the loop body: the
matched track's id, or the id a spawned track receives. -/
noncomputable def affectedId (t : ℚ) (fs : FoldState) (d : Det) : ℕ :=
  match (findMatch fs.old (centroid d).1 (centroid d).2 t).1 with
  | some mv => mv.1
  | none => fs.next_id

/-- The ids the successive detections of one frame are routed to. -/
noncomputable def affectedIds (t : ℚ) : FoldState → List Det → List ℕ
  | _, [] => []
  | fs, d :: ds => affectedId t fs d :: affectedIds t (processDet t fs d) ds

/-- Lookup of a record by vehicle id in the aggregated output. -/
def lookupRec (l : List VehicleRec) (id : ℕ) : Option VehicleRec :=
  l.find? fun r => r.id == id

/-- State-level invariant maintained by `update`. -/
structure StoreInv (s : TrackerState) : Prop where
  pos : 1 ≤ s.next_id
  lower : ∀ p ∈ s.tracked_vehicles, 1 ≤ p.1
  bound : ∀ p ∈ s.tracked_vehicles, p.1 < s.next_id
  nodup : (idsOf s.tracked_vehicles).Nodup
  ok : ∀ p ∈ s.tracked_vehicles, TrackOK p.2

/-- Invariant carried through the detection loop of one `update` call.
`n0` is the id counter at the start of the frame and `base` the store as
the loop first sees it (all tracks flagged unmatched). -/
structure FoldInv (n0 : ℕ) (base : List (ℕ × Track)) (fs : FoldState) : Prop where
  old_ids : idsOf fs.old = idsOf base
  next_ge : n0 ≤ fs.next_id
  upd_matched : ∀ p ∈ fs.upd, p.2.matched = true
  upd_src : ∀ p ∈ fs.upd,
    p ∈ fs.old ∨ (n0 ≤ p.1 ∧ p.1 < fs.next_id ∧ p.1 ∉ idsOf fs.old)
  upd_nodup : (fs.upd.map Prod.fst).Nodup
  old_matched_in_upd : ∀ p ∈ fs.old, p.2.matched = true → p ∈ fs.upd
  old_prov : ∀ p ∈ fs.old, ∃ v0, (p.1, v0) ∈ base ∧
    (v0.alerted = true → p.2.alerted = true)
  old_ok : ∀ p ∈ fs.old, TrackOK p.2
  upd_ok : ∀ p ∈ fs.upd, TrackOK p.2
  upd_fresh_alert : ∀ p ∈ fs.upd, p.1 ∉ idsOf fs.old → p.2.alerted = false
  alerts_wit : ∀ a ∈ fs.alerts,
    ∃ v, (a.track_id, v) ∈ fs.old ∧ v.matched = true ∧ v.alerted = true
  alerts_base : ∀ a ∈ fs.alerts, ∃ v0, (a.track_id, v0) ∈ base ∧ v0.alerted = false
  alerts_nodup : (fs.alerts.map Alert.track_id).Nodup

/-! ## Concrete scenario data for counterexamples and witnesses -/

/-- A detection with a degenerate box whose centroid is exactly `(cx, cy)`. -/
def mkDet (cx cy : ℤ) : Det := ⟨cx, cy, 0, 0, 1, 2⟩

/-- The track `spawnTrack` builds for `mkDet cx cy` when the counter is at `id`. -/
def seedTrack (id : ℕ) (cx cy : ℤ) (t : ℚ) : Track :=
  { id := id, vtype := "car", last_position := (cx, cy, t), positions := [(cx, cy, t)],
    speed_history := [], speed := none, matched := true, alerted := false,
    confidence := 1 }

/-- `seedTrack` with the matched flag cleared, as the next frame's
matching loop sees it. -/
def seedTrackU (id : ℕ) (cx cy : ℤ) (t : ℚ) : Track :=
  { id := id, vtype := "car", last_position := (cx, cy, t), positions := [(cx, cy, t)],
    speed_history := [], speed := none, matched := false, alerted := false,
    confidence := 1 }

/-- State after one frame with a single detection at the origin at `t = 1`:
one track with id 1.  Used by several witnesses. -/
noncomputable def wState : TrackerState := (update initState [mkDet 0 0] 1).1

/-- Frame 1 of the C1 counterexample: two detections 160 px apart. -/
noncomputable def cexS1 : TrackerState :=
  (update initState [mkDet 0 0, mkDet 160 0] (1 / 5)).1

/-- Frame 2 of the C1 counterexample: one detection matching track 2 only;
track 1 is unmatched and pruning re-appends it after track 2, so the
store's iteration order becomes [2, 1]. -/
noncomputable def cexS2 : TrackerState := (update cexS1 [mkDet 160 0] (3 / 10)).1

/-- Track 2 as it stands inside `cexS2`. -/
def cexTb2 : Track :=
  { id := 2, vtype := "car", last_position := (160, 0, 3 / 10),
    positions := [(160, 0, 1 / 5), (160, 0, 3 / 10)], speed_history := [],
    speed := none, matched := true, alerted := false, confidence := 1 }

/-- A Blob-variant detection: centroid plus a degenerate bounding box. -/
def bDet (cx cy : ℤ) : (ℤ × ℤ) × (ℤ × ℤ × ℤ × ℤ) := ((cx, cy), (0, 0, 0, 0))

/-- Three Blob frames: one vehicle moving 20 px per frame. -/
def blobFrames3 : List (List ((ℤ × ℤ) × (ℤ × ℤ × ℤ × ℤ))) :=
  [[bDet 0 0], [bDet 20 0], [bDet 40 0]]

/-- Two result records with the same id and the same speed at different
timestamps, for the aggregation tie-break. -/
def recA : VehicleRec :=
  { id := 1, vtype := "car", direction := "outbound", speed := 50, timestamp := 1,
    position := (0, 0), confidence := 1 }

def recB : VehicleRec :=
  { id := 1, vtype := "car", direction := "outbound", speed := 50, timestamp := 2,
    position := (0, 0), confidence := 1 }

/-- A track ready to emit a record: three positions and a defined speed. -/
def emitReadyTrack : Track :=
  { id := 7, vtype := "car", last_position := (5, 0, 2 / 5),
    positions := [(0, 0, 0), (1, 0, 1 / 5), (5, 0, 2 / 5)], speed_history := [36],
    speed := some 36, matched := true, alerted := false, confidence := 1 }

/-- The single track of the C8 run after the rejected 50-pixel jump: the
new position is pushed but the speed history stays empty and the speed
key stays absent. -/
def c8Track : Track :=
  { id := 1, vtype := "car", last_position := (50, 0, 2 / 25),
    positions := [(0, 0, 1 / 25), (50, 0, 2 / 25)], speed_history := [],
    speed := none, matched := true, alerted := false, confidence := 1 }

/-- The Blob vehicle after frame 1 of the Blob counterexample run. -/
def bV1 : BVehicle :=
  { id := 1, bbox := (0, 0, 0, 0), vehicle_type := "car", positions := [(0, 0)],
    speed_kmh := 0, counted := false }

/-- The Blob vehicle after the matching pass of frame 2 (speed not yet
recomputed). -/
def bV2m : BVehicle :=
  { id := 1, bbox := (0, 0, 0, 0), vehicle_type := "car",
    positions := [(0, 0), (20, 0)], speed_kmh := 0, counted := false }

/-- The Blob vehicle after frame 2: 20 px in 1/25 s gives 180 km/h. -/
def bV2 : BVehicle :=
  { id := 1, bbox := (0, 0, 0, 0), vehicle_type := "car",
    positions := [(0, 0), (20, 0)], speed_kmh := 180, counted := false }

/-- The Blob vehicle after frame 3: still moving at 180 km/h. -/
def bV3 : BVehicle :=
  { id := 1, bbox := (0, 0, 0, 0), vehicle_type := "car",
    positions := [(0, 0), (20, 0), (40, 0)], speed_kmh := 180, counted := false }

/-- Invariant relating a tracker state to the alerts already emitted over
the run: alert ids come from the id counter's past, each id alerted at
most once, and a live track with a clear latch has never alerted. -/
structure AlertRunInv (s : TrackerState) (past : List Alert) : Prop where
  store : StoreInv s
  past_bound : ∀ a ∈ past, a.track_id < s.next_id
  once : ∀ id, countA id past ≤ 1
  clear_latch : ∀ p ∈ s.tracked_vehicles, p.2.alerted = false → countA p.1 past = 0

/-! ## Basic lemmas about the geometry -/

theorem hypot_nonneg (dx dy : ℤ) : 0 ≤ hypot dx dy :=
  Real.sqrt_nonneg _

theorem hypot_eval (dx dy k : ℤ) (hk : 0 ≤ k) (h : dx ^ 2 + dy ^ 2 = k ^ 2) :
    hypot dx dy = (k : ℝ) := by
  unfold hypot
  have h2 : ((dx : ℝ) ^ 2 + (dy : ℝ) ^ 2) = (k : ℝ) ^ 2 := by exact_mod_cast h
  rw [h2, Real.sqrt_sq (by exact_mod_cast hk)]

theorem hypot_x (d : ℤ) : hypot d 0 = (|d| : ℤ) := by
  apply hypot_eval d 0 |d| (abs_nonneg d)
  rw [sq_abs]
  ring

/-! ## Membership through the pruning fold (lines 133-136) -/

theorem keepStale_mem (t : ℚ) (old : List (ℕ × Track)) (upd : List (ℕ × Track))
    (p : ℕ × Track) :
    p ∈ keepStale t upd old ↔
      p ∈ upd ∨ (p ∈ old ∧ p.2.matched = false ∧ t - p.2.last_position.2.2 < 3) := by
  induction old generalizing upd with
  | nil => simp [keepStale]
  | cons q l ih =>
    unfold keepStale at ih ⊢
    simp only [List.foldl_cons]
    by_cases h : q.2.matched = false ∧ t - q.2.last_position.2.2 < 3
    · rw [if_pos h, ih]
      simp only [List.mem_append, List.mem_cons, List.not_mem_nil, or_false]
      constructor
      · rintro ((hp | rfl) | hp)
        · exact Or.inl hp
        · exact Or.inr ⟨Or.inl rfl, h⟩
        · exact Or.inr ⟨Or.inr hp.1, hp.2⟩
      · rintro (hp | ⟨rfl | hp, hc⟩)
        · exact Or.inl (Or.inl hp)
        · exact Or.inl (Or.inr rfl)
        · exact Or.inr ⟨hp, hc⟩
    · rw [if_neg h, ih]
      simp only [List.mem_cons]
      constructor
      · rintro (hp | hp)
        · exact Or.inl hp
        · exact Or.inr ⟨Or.inr hp.1, hp.2⟩
      · rintro (hp | ⟨rfl | hp, hc⟩)
        · exact Or.inl hp
        · exact absurd hc h
        · exact Or.inr ⟨hp, hc⟩

/-! ## Structural lemmas about the speed/alert block -/

theorem speedAlert_shape (vid : ℕ) (v : Track) (cx cy : ℤ) (t : ℚ) :
    ∃ h s a, (speedAlert vid v cx cy t).1 =
      { v with speed_history := h, speed := s, alerted := a } := by
  unfold speedAlert
  dsimp only
  repeat' split
  all_goals exact ⟨_, _, _, rfl⟩

theorem speedAlert_id (vid : ℕ) (v : Track) (cx cy : ℤ) (t : ℚ) :
    (speedAlert vid v cx cy t).1.id = v.id := by
  obtain ⟨h, s, a, hv⟩ := speedAlert_shape vid v cx cy t
  rw [hv]

theorem speedAlert_positions (vid : ℕ) (v : Track) (cx cy : ℤ) (t : ℚ) :
    (speedAlert vid v cx cy t).1.positions = v.positions := by
  obtain ⟨h, s, a, hv⟩ := speedAlert_shape vid v cx cy t
  rw [hv]

theorem speedAlert_matched (vid : ℕ) (v : Track) (cx cy : ℤ) (t : ℚ) :
    (speedAlert vid v cx cy t).1.matched = v.matched := by
  obtain ⟨h, s, a, hv⟩ := speedAlert_shape vid v cx cy t
  rw [hv]

theorem speedAlert_last_position (vid : ℕ) (v : Track) (cx cy : ℤ) (t : ℚ) :
    (speedAlert vid v cx cy t).1.last_position = v.last_position := by
  obtain ⟨h, s, a, hv⟩ := speedAlert_shape vid v cx cy t
  rw [hv]

theorem speedAlert_vtype (vid : ℕ) (v : Track) (cx cy : ℤ) (t : ℚ) :
    (speedAlert vid v cx cy t).1.vtype = v.vtype := by
  obtain ⟨h, s, a, hv⟩ := speedAlert_shape vid v cx cy t
  rw [hv]

theorem speedAlert_alerted_mono (vid : ℕ) (v : Track) (cx cy : ℤ) (t : ℚ)
    (h : v.alerted = true) : (speedAlert vid v cx cy t).1.alerted = true := by
  unfold speedAlert
  dsimp only
  repeat' split
  all_goals simp_all

/-- Either no alert is emitted, or the track's latch was clear, is now
set, and the alert carries the track's id and the fresh smoothed speed. -/
theorem speedAlert_snd_cases (vid : ℕ) (v : Track) (cx cy : ℤ) (t : ℚ) :
    (speedAlert vid v cx cy t).2 = none ∨
      (v.alerted = false ∧ (speedAlert vid v cx cy t).1.alerted = true ∧
        ∃ sp, (speedAlert vid v cx cy t).2 =
            some { track_id := vid, vtype := v.vtype, speed := sp,
                   timestamp := t, position := (cx, cy) } ∧
          (speedAlert vid v cx cy t).1.speed = some sp ∧ 130 < sp) := by
  unfold speedAlert
  dsimp only
  repeat' split
  all_goals try exact Or.inl rfl
  all_goals rename_i hc
  all_goals exact Or.inr ⟨hc.2, rfl, _, rfl, rfl, hc.1⟩

theorem speedAlert_trackOK (vid : ℕ) (v : Track) (cx cy : ℤ) (t : ℚ)
    (h : TrackOK v) : TrackOK (speedAlert vid v cx cy t).1 := by
  obtain ⟨h1, h2⟩ := h
  unfold speedAlert
  dsimp only
  repeat' split
  all_goals try exact ⟨h1, h2⟩
  all_goals unfold TrackOK
  all_goals dsimp only
  all_goals refine ⟨?_, ?_, rfl⟩
  all_goals
    simp only [SPEED_SMOOTHING_WINDOW, ne_eq, ← List.length_eq_zero, List.length_tail,
      List.length_append, List.length_singleton] at *
  all_goals omega

/-! ## Soundness of the matcher scan -/

theorem findMatch_mem (store : List (ℕ × Track)) (cx cy : ℤ) (t : ℚ) (mv : ℕ × Track)
    (h : (findMatch store cx cy t).1 = some mv) :
    mv ∈ store ∧ mv.2.matched = false := by
  unfold findMatch at h
  suffices H : ∀ (l : List (ℕ × Track)) (acc : Option (ℕ × Track) × Option ℝ),
      (∀ q, acc.1 = some q → q ∈ store ∧ q.2.matched = false) →
      (∀ x ∈ l, x ∈ store) →
      ∀ q, (l.foldl (scanStep t cx cy) acc).1 = some q → q ∈ store ∧ q.2.matched = false by
    exact H store (none, none) (by simp) (fun x hx => hx) mv h
  intro l
  induction l with
  | nil => intro acc hacc _ q hq; exact hacc q hq
  | cons p l ih =>
    intro acc hacc hsub q hq
    rw [List.foldl_cons] at hq
    refine ih (scanStep t cx cy acc p) ?_ (fun x hx => hsub x (List.mem_cons_of_mem _ hx)) q hq
    intro q' hq'
    unfold scanStep at hq'
    split at hq'
    · exact hacc q' hq'
    · rename_i hmatched
      dsimp only at hq'
      split at hq'
      · split at hq'
        · split at hq'
          · rename_i mid m
            split at hq'
            · simp only [Option.some.injEq] at hq'
              subst hq'
              exact ⟨hsub p (List.mem_cons_self p l), by
                simpa using hmatched⟩
            · exact hacc q' hq'
          · simp only [Option.some.injEq] at hq'
            subst hq'
            exact ⟨hsub p (List.mem_cons_self p l), by
              simpa using hmatched⟩
        · exact hacc q' hq'
      · exact hacc q' hq'

/-! ## The scan is the first-on-ties argmin over the gated candidates -/

theorem scanStep_gated (t : ℚ) (cx cy : ℤ) (acc : Option (ℕ × Track) × Option ℝ)
    (p : ℕ × Track) (hm : p.2.matched = false) (ht : t - p.2.last_position.2.2 < 1)
    (hd : candDist cx cy p < 100) :
    scanStep t cx cy acc p =
      match acc.2 with
      | none => (some p, some (candDist cx cy p))
      | some m =>
        if candDist cx cy p < m then (some p, some (candDist cx cy p)) else acc := by
  obtain ⟨a1, a2⟩ := acc
  unfold scanStep
  rw [if_neg (by simp [hm])]
  dsimp only
  rw [if_pos ht, if_pos hd]
  rcases a2 with _ | m
  · rfl
  · rfl

theorem scanStep_ungated (t : ℚ) (cx cy : ℤ) (acc : Option (ℕ × Track) × Option ℝ)
    (p : ℕ × Track) (hg : ¬ gatedCandidate cx cy t p = true) :
    scanStep t cx cy acc p = acc := by
  unfold scanStep
  split
  · rfl
  · rename_i hm
    dsimp only
    split
    · rename_i ht
      split
      · rename_i hd
        exact absurd (by
          simp only [gatedCandidate, Bool.and_eq_true, Bool.not_eq_true',
            decide_eq_true_eq]
          exact ⟨⟨by simpa using hm, ht⟩, hd⟩) hg
      · rfl
    · rfl

theorem findMatch_argmin_aux (t : ℚ) (cx cy : ℤ) (store : List (ℕ × Track)) :
    ∀ (acc : Option (ℕ × Track) × Option ℝ) (o : Option (ℕ × Track)),
      acc.1 = o →
      (∀ q, o = some q → acc.2 = some (candDist cx cy q)) →
      (o = none → acc.2 = none) →
      (store.foldl (scanStep t cx cy) acc).1 =
        (store.filter (gatedCandidate cx cy t)).foldl
          (List.argAux fun b c => candDist cx cy b < candDist cx cy c) o := by
  induction store with
  | nil => intro acc o h1 h2 h3; simpa using h1
  | cons p l ih =>
    intro acc o h1 h2 h3
    rw [List.foldl_cons]
    by_cases hg : gatedCandidate cx cy t p = true
    · have hg' := hg
      simp only [gatedCandidate, Bool.and_eq_true, Bool.not_eq_true',
        decide_eq_true_eq] at hg'
      obtain ⟨⟨hm, ht⟩, hd⟩ := hg'
      rw [List.filter_cons_of_pos hg, List.foldl_cons,
        scanStep_gated t cx cy acc p hm ht hd]
      rcases o with _ | c
      · rw [h3 rfl]
        dsimp only
        have hR : List.argAux (fun b c => candDist cx cy b < candDist cx cy c)
            none p = some p := rfl
        rw [hR]
        refine ih (some p, some (candDist cx cy p)) (some p) rfl ?_ (by simp)
        intro q hq
        injection hq with hq
        subst hq
        rfl
      · have hc2 := h2 c rfl
        rw [hc2]
        dsimp only
        by_cases hlt : candDist cx cy p < candDist cx cy c
        · rw [if_pos hlt]
          have hR : List.argAux (fun b c => candDist cx cy b < candDist cx cy c)
              (some c) p = some p := by
            simp only [List.argAux]
            rw [if_pos hlt]
          rw [hR]
          refine ih (some p, some (candDist cx cy p)) (some p) rfl ?_ (by simp)
          intro q hq
          injection hq with hq
          subst hq
          rfl
        · rw [if_neg hlt]
          have hR : List.argAux (fun b c => candDist cx cy b < candDist cx cy c)
              (some c) p = some c := by
            simp only [List.argAux]
            rw [if_neg hlt]
          rw [hR]
          exact ih acc (some c) h1 h2 h3
    · rw [scanStep_ungated t cx cy acc p hg, List.filter_cons_of_neg (by simpa using hg)]
      exact ih acc o h1 h2 h3

/-- The matcher's selection, for any store and any detection centroid, is
exactly the first-on-ties minimiser of the Euclidean centroid distance
over the tracks that pass the matched-flag, time and distance gates. -/
theorem findMatch_eq_argmin (store : List (ℕ × Track)) (cx cy : ℤ) (t : ℚ) :
    (findMatch store cx cy t).1 =
      (store.filter (gatedCandidate cx cy t)).argmin (candDist cx cy) := by
  unfold findMatch List.argmin
  exact findMatch_argmin_aux t cx cy store (none, none) none rfl
    (by intro q hq; cases hq) (fun _ => rfl)

/-! ## Association-list lemmas for the aggregation dict -/

section AList

variable {β : Type*}

theorem lookup_append (k : ℕ) (l1 l2 : List (ℕ × β)) :
    (l1 ++ l2).lookup k =
      match l1.lookup k with
      | some v => some v
      | none => l2.lookup k := by
  induction l1 with
  | nil => simp
  | cons p rest ih =>
    rcases p with ⟨a, b⟩
    by_cases h : k = a
    · subst h
      simp [List.lookup]
    · simp only [List.cons_append, List.lookup, beq_eq_false_iff_ne.mpr h]
      exact ih

theorem lookup_map_replace (k : ℕ) (v : β) (l : List (ℕ × β)) :
    (l.map fun p => if p.1 = k then (k, v) else p).lookup k =
      (l.lookup k).map fun _ => v := by
  induction l with
  | nil => simp
  | cons p rest ih =>
    rcases p with ⟨a, b⟩
    simp only [List.map_cons]
    by_cases h : a = k
    · subst h
      rw [if_pos rfl]
      simp [List.lookup]
    · have hk : ¬(k = a) := fun hh => h hh.symm
      rw [if_neg h]
      simp only [List.lookup, beq_eq_false_iff_ne.mpr hk]
      exact ih

theorem lookup_map_replace_ne (i k : ℕ) (v : β) (l : List (ℕ × β)) (h : i ≠ k) :
    (l.map fun p => if p.1 = k then (k, v) else p).lookup i = l.lookup i := by
  induction l with
  | nil => simp
  | cons p rest ih =>
    rcases p with ⟨a, b⟩
    simp only [List.map_cons]
    by_cases ha : a = k
    · subst ha
      rw [if_pos rfl]
      simp only [List.lookup, beq_eq_false_iff_ne.mpr h]
      exact ih
    · rw [if_neg ha]
      by_cases hi : i = a
      · subst hi
        simp [List.lookup]
      · simp only [List.lookup, beq_eq_false_iff_ne.mpr hi]
        exact ih

theorem lookup_eq_none_iff (k : ℕ) (l : List (ℕ × β)) :
    l.lookup k = none ↔ k ∉ l.map Prod.fst := by
  induction l with
  | nil => simp
  | cons p rest ih =>
    rcases p with ⟨a, b⟩
    by_cases h : k = a
    · subst h
      simp [List.lookup]
    · simp only [List.lookup, beq_eq_false_iff_ne.mpr h, List.map_cons, List.mem_cons]
      rw [ih]
      constructor
      · rintro hk (rfl | hmem)
        · exact h rfl
        · exact hk hmem
      · intro hk hmem
        exact hk (Or.inr hmem)

end AList

/-! ## The aggregation fold (lines 228-235) -/

theorem find_map_snd (k : ℕ) (l : List (ℕ × VehicleRec))
    (h : ∀ p ∈ l, p.2.id = p.1) :
    (l.map Prod.snd).find? (fun r => r.id == k) = l.lookup k := by
  induction l with
  | nil => simp
  | cons p rest ih =>
    rcases p with ⟨a, b⟩
    have hb : b.id = a := h (a, b) (List.mem_cons_self _ _)
    by_cases hk : k = a
    · subst hk
      simp [List.find?, List.lookup, hb]
    · have hne : (b.id == k) = false := by
        rw [hb]
        exact beq_eq_false_iff_ne.mpr fun hh => hk hh.symm
      simp only [List.map_cons, List.find?, hne, List.lookup,
        beq_eq_false_iff_ne.mpr hk]
      exact ih fun q hq => h q (List.mem_cons_of_mem _ hq)

/-- Keys of the aggregation dict after one step. -/
theorem aggStep_keys (acc : List (ℕ × VehicleRec)) (r : VehicleRec) :
    (aggStep acc r).map Prod.fst =
      if r.id ∈ acc.map Prod.fst then acc.map Prod.fst
      else acc.map Prod.fst ++ [r.id] := by
  unfold aggStep
  rcases h : acc.lookup r.id with _ | cur
  · rw [if_neg ((lookup_eq_none_iff r.id acc).mp h)]
    simp
  · have hmem : r.id ∈ acc.map Prod.fst := by
      by_contra hc
      rw [(lookup_eq_none_iff r.id acc).mpr hc] at h
      cases h
    rw [if_pos hmem]
    dsimp only
    split
    · rw [List.map_map]
      apply List.map_congr_left
      intro p hp
      by_cases hk : p.1 = r.id
      · simp [hk]
      · simp [hk]
    · rfl

/-- The dict entry for each id is the first-on-ties maximal-speed record
among the records carrying that id. -/
theorem agg_fold_inv (recs : List VehicleRec) :
    (∀ p ∈ recs.foldl aggStep [], p.2.id = p.1) ∧
      (((recs.foldl aggStep []).map Prod.fst).Nodup) ∧
      (∀ k, (recs.foldl aggStep []).lookup k =
        (recs.filter fun r => r.id == k).argmax fun r => r.speed) := by
  induction recs using List.reverseRecOn with
  | nil => simp
  | append_singleton l r ih =>
    obtain ⟨ih1, ih2, ih3⟩ := ih
    rw [List.foldl_append, List.foldl_cons, List.foldl_nil]
    refine ⟨?_, ?_, ?_⟩
    · -- ids stored as keys
      intro p hp
      set acc := l.foldl aggStep [] with hacc
      unfold aggStep at hp
      rcases h : acc.lookup r.id with _ | cur <;> rw [h] at hp
      · rcases List.mem_append.mp hp with hmem | hmem
        · exact ih1 p hmem
        · simp only [List.mem_singleton] at hmem
          subst hmem
          rfl
      · dsimp only at hp
        split at hp
        · rcases List.mem_map.mp hp with ⟨q, hq, hqeq⟩
          by_cases hk : q.1 = r.id
          · rw [if_pos hk] at hqeq
            subst hqeq
            rfl
          · rw [if_neg hk] at hqeq
            subst hqeq
            exact ih1 q hq
        · exact ih1 p hp
    · -- keys stay nodup
      rw [aggStep_keys]
      split
      · exact ih2
      · rename_i hnot
        simp only [List.nodup_append, List.nodup_singleton, List.disjoint_singleton]
        exact ⟨ih2, by simpa using hnot⟩
    · -- lookup equals first-on-ties argmax
      intro k
      set acc := l.foldl aggStep [] with hacc
      unfold aggStep
      rw [List.filter_append]
      by_cases hk : k = r.id
      · subst hk
        have hfr : List.filter (fun x => x.id == r.id) [r] = [r] := by simp
        rw [hfr, List.argmax_concat, ← ih3 r.id]
        rcases h : acc.lookup r.id with _ | cur
        · dsimp only
          rw [lookup_append, h]
          simp [List.lookup]
        · dsimp only
          by_cases hlt : cur.speed < r.speed
          · rw [if_pos hlt, if_pos hlt, lookup_map_replace, h]
            rfl
          · rw [if_neg hlt, if_neg hlt, h]
      · have hfr : List.filter (fun x => x.id == k) [r] = [] := by
          simp only [List.filter_cons, List.filter_nil,
            beq_eq_false_iff_ne.mpr (fun hh => hk hh.symm)]
          rfl
        rw [hfr, List.append_nil, ← ih3 k]
        rcases h : acc.lookup r.id with _ | cur
        · dsimp only
          rw [lookup_append]
          rcases h2 : acc.lookup k with _ | v
          · simp [List.lookup, beq_eq_false_iff_ne.mpr hk]
          · rfl
        · dsimp only
          by_cases hlt : cur.speed < r.speed
          · rw [if_pos hlt, lookup_map_replace_ne k r.id r _ hk]
          · rw [if_neg hlt]

/-- Lookup in the aggregated output list: the first-on-ties
maximal-speed record among the records carrying the id. -/
theorem aggregate_lookup (recs : List VehicleRec) (k : ℕ) :
    lookupRec (aggregate recs) k =
      (recs.filter fun r => r.id == k).argmax fun r => r.speed := by
  unfold lookupRec aggregate
  rw [find_map_snd k _ (agg_fold_inv recs).1]
  exact (agg_fold_inv recs).2.2 k

/-! ## Store bookkeeping lemmas -/

theorem nodup_keys_eq {l : List (ℕ × Track)} (h : (idsOf l).Nodup)
    {k : ℕ} {a b : Track} (ha : (k, a) ∈ l) (hb : (k, b) ∈ l) : a = b := by
  induction l with
  | nil => cases ha
  | cons p rest ih =>
    simp only [idsOf, List.map_cons, List.nodup_cons] at h
    rcases List.mem_cons.mp ha with rfl | ha2
    · rcases List.mem_cons.mp hb with hb1 | hb2
      · exact (congrArg Prod.snd hb1).symm
      · exact absurd (List.mem_map.mpr ⟨(k, b), hb2, rfl⟩) h.1
    · rcases List.mem_cons.mp hb with rfl | hb2
      · exact absurd (List.mem_map.mpr ⟨(k, a), ha2, rfl⟩) h.1
      · exact ih h.2 ha2 hb2

theorem idsOf_replace (l : List (ℕ × Track)) (vid : ℕ) (v : Track) :
    idsOf (l.map fun p => if p.1 = vid then (vid, v) else p) = idsOf l := by
  unfold idsOf
  rw [List.map_map]
  apply List.map_congr_left
  intro p hp
  by_cases h : p.1 = vid
  · simp [h]
  · simp [h]

theorem mem_replace_of_mem {l : List (ℕ × Track)} {q : ℕ × Track} (hq : q ∈ l)
    (vid : ℕ) (v : Track) (h : q.1 ≠ vid) :
    q ∈ l.map fun p => if p.1 = vid then (vid, v) else p := by
  refine List.mem_map.mpr ⟨q, hq, ?_⟩
  rw [if_neg h]

theorem mem_replace_self {l : List (ℕ × Track)} {vid : ℕ} {w : Track}
    (hw : (vid, w) ∈ l) (v : Track) :
    (vid, v) ∈ l.map fun p => if p.1 = vid then (vid, v) else p := by
  refine List.mem_map.mpr ⟨(vid, w), hw, ?_⟩
  rw [if_pos rfl]

theorem mem_of_mem_replace {l : List (ℕ × Track)} {vid : ℕ} {v : Track}
    {q : ℕ × Track} (hq : q ∈ l.map fun p => if p.1 = vid then (vid, v) else p) :
    (q.1 = vid ∧ q.2 = v) ∨ (q ∈ l ∧ q.1 ≠ vid) := by
  rcases List.mem_map.mp hq with ⟨q0, hq0, hmap⟩
  by_cases h : q0.1 = vid
  · rw [if_pos h] at hmap
    left
    rw [← hmap]
    exact ⟨rfl, rfl⟩
  · rw [if_neg h] at hmap
    right
    rw [← hmap]
    exact ⟨hq0, h⟩

theorem idsOf_markUnmatched (l : List (ℕ × Track)) :
    idsOf (markUnmatched l) = idsOf l := by
  unfold idsOf markUnmatched
  rw [List.map_map]
  rfl

theorem mem_markUnmatched {l : List (ℕ × Track)} {q : ℕ × Track}
    (hq : q ∈ markUnmatched l) :
    ∃ v, (q.1, v) ∈ l ∧ q.2 = { v with matched := false } := by
  rcases List.mem_map.mp hq with ⟨q0, hq0, hmap⟩
  exact ⟨q0.2, by rw [← hmap]; exact hq0, by rw [← hmap]⟩

theorem keepStale_eq_filter (t : ℚ) (upd old : List (ℕ × Track)) :
    keepStale t upd old =
      upd ++ old.filter
        (fun p => decide (p.2.matched = false ∧ t - p.2.last_position.2.2 < 3)) := by
  induction old generalizing upd with
  | nil => simp [keepStale]
  | cons q l ih =>
    unfold keepStale at ih ⊢
    rw [List.foldl_cons]
    by_cases h : q.2.matched = false ∧ t - q.2.last_position.2.2 < 3
    · rw [if_pos h, ih, List.filter_cons_of_pos (by simpa using h)]
      simp
    · rw [if_neg h, ih, List.filter_cons_of_neg (by simpa using h)]

/-! ## Behaviour of the matched-track transform -/

theorem matchedTrack_matched (t : ℚ) (cx cy : ℤ) (vid : ℕ) (v0 : Track) :
    (matchedTrack t cx cy vid v0).matched = true := by
  unfold matchedTrack
  dsimp only
  rw [speedAlert_matched]

theorem matchedTrack_alerted_mono (t : ℚ) (cx cy : ℤ) (vid : ℕ) (v0 : Track)
    (h : v0.alerted = true) : (matchedTrack t cx cy vid v0).alerted = true := by
  unfold matchedTrack
  dsimp only
  exact speedAlert_alerted_mono vid _ cx cy t h

theorem matchedTrack_trackOK (t : ℚ) (cx cy : ℤ) (vid : ℕ) (v0 : Track)
    (h : TrackOK v0) : TrackOK (matchedTrack t cx cy vid v0) := by
  unfold matchedTrack
  dsimp only
  exact speedAlert_trackOK vid _ cx cy t h

theorem matchedTrack_alert_fire (t : ℚ) (cx cy : ℤ) (vid : ℕ) (v0 : Track)
    (a : Alert) (h : (speedAlert vid { v0 with matched := true } cx cy t).2 = some a) :
    v0.alerted = false ∧ (matchedTrack t cx cy vid v0).alerted = true ∧
      a.track_id = vid := by
  rcases speedAlert_snd_cases vid { v0 with matched := true } cx cy t with hn | hy
  · rw [hn] at h
    cases h
  · obtain ⟨hfalse, htrue, sp, heq, _, _⟩ := hy
    rw [heq] at h
    injection h with h
    subst h
    exact ⟨hfalse, by unfold matchedTrack; dsimp only; exact htrue, rfl⟩

/-! ## The two branches of the loop body -/

theorem processDet_matched_eq (t : ℚ) (fs : FoldState) (d : Det) (mv : ℕ × Track)
    (h : (findMatch fs.old (centroid d).1 (centroid d).2 t).1 = some mv) :
    processDet t fs d =
      applyMatch t (centroid d).1 (centroid d).2 d.conf mv.1 mv.2 fs := by
  unfold processDet
  dsimp only
  rw [h]

theorem processDet_spawn_eq (t : ℚ) (fs : FoldState) (d : Det)
    (h : (findMatch fs.old (centroid d).1 (centroid d).2 t).1 = none) :
    processDet t fs d =
      spawnTrack t (centroid d).1 (centroid d).2 d.conf d.class_id fs := by
  unfold processDet
  dsimp only
  rw [h]

/-! ## Preservation of the loop invariant -/

theorem foldInv_spawn (t : ℚ) (n0 : ℕ) (base : List (ℕ × Track))
    (hB : ∀ id ∈ idsOf base, id < n0)
    (fs : FoldState) (cx cy : ℤ) (conf : ℝ) (cid : ℕ)
    (hI : FoldInv n0 base fs) :
    FoldInv n0 base (spawnTrack t cx cy conf cid fs) := by
  have hBold : ∀ id ∈ idsOf fs.old, id < n0 := by
    rw [hI.old_ids]; exact hB
  unfold spawnTrack
  dsimp only
  refine ⟨hI.old_ids, hI.next_ge.trans (Nat.le_succ _), ?_, ?_, ?_, ?_,
    hI.old_prov, hI.old_ok, ?_, ?_, hI.alerts_wit, hI.alerts_base, hI.alerts_nodup⟩
  · intro p hp
    rcases List.mem_append.mp hp with hp | hp
    · exact hI.upd_matched p hp
    · simp only [List.mem_singleton] at hp
      subst hp
      rfl
  · intro p hp
    rcases List.mem_append.mp hp with hp | hp
    · rcases hI.upd_src p hp with hpo | ⟨h1, h2, h3⟩
      · exact Or.inl hpo
      · exact Or.inr ⟨h1, h2.trans (Nat.lt_succ_self _), h3⟩
    · simp only [List.mem_singleton] at hp
      subst hp
      refine Or.inr ⟨hI.next_ge, Nat.lt_succ_self _, fun hmem => ?_⟩
      exact absurd (hBold _ hmem) (not_lt.mpr hI.next_ge)
  · rw [List.map_append, List.map_cons, List.map_nil]
    refine List.Nodup.append hI.upd_nodup (List.nodup_singleton _) ?_
    intro a ha hb
    simp only [List.mem_singleton] at hb
    subst hb
    rcases List.mem_map.mp ha with ⟨q, hq, hqa⟩
    rcases hI.upd_src q hq with hqo | ⟨_, h2, _⟩
    · have hmem2 : q.1 ∈ idsOf fs.old := List.mem_map.mpr ⟨q, hqo, rfl⟩
      exact absurd hqa (Nat.ne_of_lt (lt_of_lt_of_le (hBold _ hmem2) hI.next_ge))
    · exact absurd hqa (Nat.ne_of_lt h2)
  · intro p hp hm
    exact List.mem_append_left _ (hI.old_matched_in_upd p hp hm)
  · intro p hp
    rcases List.mem_append.mp hp with hp | hp
    · exact hI.upd_ok p hp
    · simp only [List.mem_singleton] at hp
      subst hp
      exact ⟨by simp [SPEED_SMOOTHING_WINDOW], rfl⟩
  · intro p hp hfresh
    rcases List.mem_append.mp hp with hp | hp
    · exact hI.upd_fresh_alert p hp hfresh
    · simp only [List.mem_singleton] at hp
      subst hp
      rfl

theorem foldInv_applyMatch (t : ℚ) (n0 : ℕ) (base : List (ℕ × Track))
    (hN : (idsOf base).Nodup)
    (fs : FoldState) (cx cy : ℤ) (conf : ℝ) (vid : ℕ) (w : Track)
    (hI : FoldInv n0 base fs) (hmem : (vid, w) ∈ fs.old) (hunm : w.matched = false) :
    FoldInv n0 base (applyMatch t cx cy conf vid w fs) := by
  have hNold : (idsOf fs.old).Nodup := by rw [hI.old_ids]; exact hN
  have hkey : ∀ {x : Track}, (vid, x) ∈ fs.old → x = w :=
    fun hx => nodup_keys_eq hNold hx hmem
  have hvid_ids : vid ∈ idsOf fs.old := List.mem_map.mpr ⟨(vid, w), hmem, rfl⟩
  have hok_w : TrackOK w := hI.old_ok (vid, w) hmem
  unfold applyMatch
  dsimp only
  set v2 := matchedTrack t cx cy vid w with hv2
  have hv2m : v2.matched = true := matchedTrack_matched t cx cy vid w
  have hv2ok : TrackOK v2 := matchedTrack_trackOK t cx cy vid w hok_w
  have hv2mem : (vid, v2) ∈ fs.old.map (fun p => if p.1 = vid then (vid, v2) else p) :=
    mem_replace_self hmem v2
  refine ⟨(idsOf_replace fs.old vid v2).trans hI.old_ids, hI.next_ge,
    ?_, ?_, ?_, ?_, ?_, ?_, ?_, ?_, ?_, ?_, ?_⟩
  · -- upd_matched
    intro p hp
    rcases List.mem_append.mp hp with hp | hp
    · exact hI.upd_matched p hp
    · simp only [List.mem_singleton] at hp
      subst hp
      exact hv2m
  · -- upd_src
    intro p hp
    rcases List.mem_append.mp hp with hp | hp
    · rcases hI.upd_src p hp with hpo | ⟨h1, h2, h3⟩
      · have hne : p.1 ≠ vid := by
          intro he
          have hpv : (vid, p.2) ∈ fs.old := by rw [← he]; exact hpo
          have hp2 : p.2 = w := hkey hpv
          have hmt := hI.upd_matched p hp
          rw [hp2, hunm] at hmt
          cases hmt
        exact Or.inl (mem_replace_of_mem hpo vid v2 hne)
      · exact Or.inr ⟨h1, h2, by rw [idsOf_replace]; exact h3⟩
    · simp only [List.mem_singleton] at hp
      subst hp
      exact Or.inl hv2mem
  · -- upd_nodup
    rw [List.map_append, List.map_cons, List.map_nil]
    refine List.Nodup.append hI.upd_nodup (List.nodup_singleton _) ?_
    intro a ha hb
    simp only [List.mem_singleton] at hb
    rcases List.mem_map.mp ha with ⟨q, hq, hqa⟩
    have hq1 : q.1 = vid := hqa.trans hb
    rcases hI.upd_src q hq with hqo | ⟨_, _, h3⟩
    · have hqv : (vid, q.2) ∈ fs.old := by rw [← hq1]; exact hqo
      have hq2 : q.2 = w := hkey hqv
      have hmt := hI.upd_matched q hq
      rw [hq2, hunm] at hmt
      cases hmt
    · rw [hq1] at h3
      exact h3 hvid_ids
  · -- old_matched_in_upd
    intro p hp hm
    rcases mem_of_mem_replace hp with ⟨hp1, hp2⟩ | ⟨hpold, hpne⟩
    · have hpeq : p = (vid, v2) := by
        rcases p with ⟨p1, p2⟩
        dsimp only at hp1 hp2
        subst hp1
        subst hp2
        rfl
      rw [hpeq]
      exact List.mem_append_right _ (List.mem_singleton.mpr rfl)
    · exact List.mem_append_left _ (hI.old_matched_in_upd p hpold hm)
  · -- old_prov
    intro p hp
    rcases mem_of_mem_replace hp with ⟨hp1, hp2⟩ | ⟨hpold, _⟩
    · obtain ⟨v0, hv0, himp⟩ := hI.old_prov (vid, w) hmem
      refine ⟨v0, by rw [hp1]; exact hv0, ?_⟩
      intro ha
      rw [hp2]
      exact matchedTrack_alerted_mono t cx cy vid w (himp ha)
    · exact hI.old_prov p hpold
  · -- old_ok
    intro p hp
    rcases mem_of_mem_replace hp with ⟨_, hp2⟩ | ⟨hpold, _⟩
    · rw [hp2]
      exact hv2ok
    · exact hI.old_ok p hpold
  · -- upd_ok
    intro p hp
    rcases List.mem_append.mp hp with hp | hp
    · exact hI.upd_ok p hp
    · simp only [List.mem_singleton] at hp
      subst hp
      exact hv2ok
  · -- upd_fresh_alert
    intro p hp hfresh
    rw [idsOf_replace] at hfresh
    rcases List.mem_append.mp hp with hp | hp
    · exact hI.upd_fresh_alert p hp hfresh
    · simp only [List.mem_singleton] at hp
      subst hp
      exact absurd hvid_ids hfresh
  · -- alerts_wit
    intro a ha
    have hold_wit : ∀ b ∈ fs.alerts,
        ∃ v, (b.track_id, v) ∈ fs.old.map (fun p => if p.1 = vid then (vid, v2) else p) ∧
          v.matched = true ∧ v.alerted = true := by
      intro b hb
      obtain ⟨v, hvold, hvm, hva⟩ := hI.alerts_wit b hb
      by_cases hcase : b.track_id = vid
      · have hveq : v = w := hkey (by rw [← hcase]; exact hvold)
        exact ⟨v2, by rw [hcase]; exact hv2mem, hv2m,
          matchedTrack_alerted_mono t cx cy vid w (by rw [← hveq]; exact hva)⟩
      · exact ⟨v, mem_replace_of_mem hvold vid v2 hcase, hvm, hva⟩
    rcases List.mem_append.mp ha with ha | ha
    · exact hold_wit a ha
    · rcases hal : (speedAlert vid ({ w with matched := true } : Track) cx cy t).2 with _ | a0
      · rw [hal] at ha
        cases ha
      · rw [hal] at ha
        simp only [Option.toList_some, List.mem_singleton] at ha
        subst ha
        obtain ⟨hwf, hv2a, haid⟩ := matchedTrack_alert_fire t cx cy vid w a hal
        exact ⟨v2, by rw [haid]; exact hv2mem, hv2m, hv2a⟩
  · -- alerts_base
    intro a ha
    rcases List.mem_append.mp ha with ha | ha
    · exact hI.alerts_base a ha
    · rcases hal : (speedAlert vid ({ w with matched := true } : Track) cx cy t).2 with _ | a0
      · rw [hal] at ha
        cases ha
      · rw [hal] at ha
        simp only [Option.toList_some, List.mem_singleton] at ha
        subst ha
        obtain ⟨hwf, _, haid⟩ := matchedTrack_alert_fire t cx cy vid w a hal
        obtain ⟨v0, hv0, himp⟩ := hI.old_prov (vid, w) hmem
        refine ⟨v0, by rw [haid]; exact hv0, ?_⟩
        cases hv0a : v0.alerted
        · rfl
        · exact absurd (himp hv0a) (by rw [hwf]; simp)
  · -- alerts_nodup
    rcases hal : (speedAlert vid ({ w with matched := true } : Track) cx cy t).2 with _ | a0
    · simpa using hI.alerts_nodup
    · dsimp only
      simp only [Option.toList_some, List.map_append, List.map_cons, List.map_nil]
      refine List.Nodup.append hI.alerts_nodup (List.nodup_singleton _) ?_
      intro x hx hx2
      simp only [List.mem_singleton] at hx2
      subst hx2
      rcases List.mem_map.mp hx with ⟨b, hb, hbid⟩
      obtain ⟨hwf, _, haid⟩ := matchedTrack_alert_fire t cx cy vid w a0 hal
      obtain ⟨v, hvold, hvm, hva⟩ := hI.alerts_wit b hb
      have hveq : v = w := hkey (by rw [← (hbid.trans haid)]; exact hvold)
      rw [hveq] at hva
      exact absurd hva (by rw [hwf]; simp)

theorem foldInv_processDet (t : ℚ) (n0 : ℕ) (base : List (ℕ × Track))
    (hB : ∀ id ∈ idsOf base, id < n0) (hN : (idsOf base).Nodup)
    (fs : FoldState) (d : Det) (hI : FoldInv n0 base fs) :
    FoldInv n0 base (processDet t fs d) := by
  rcases h : (findMatch fs.old (centroid d).1 (centroid d).2 t).1 with _ | mv
  · rw [processDet_spawn_eq t fs d h]
    exact foldInv_spawn t n0 base hB fs _ _ _ _ hI
  · obtain ⟨hmem, hunm⟩ := findMatch_mem fs.old _ _ t mv h
    rw [processDet_matched_eq t fs d mv h]
    exact foldInv_applyMatch t n0 base hN fs _ _ d.conf mv.1 mv.2 hI hmem hunm

theorem foldInv_foldl (t : ℚ) (n0 : ℕ) (base : List (ℕ × Track))
    (hB : ∀ id ∈ idsOf base, id < n0) (hN : (idsOf base).Nodup) :
    ∀ (dets : List Det) (fs : FoldState), FoldInv n0 base fs →
      FoldInv n0 base (dets.foldl (processDet t) fs) := by
  intro dets
  induction dets with
  | nil => intro fs hI; exact hI
  | cons d ds ih =>
    intro fs hI
    rw [List.foldl_cons]
    exact ih _ (foldInv_processDet t n0 base hB hN fs d hI)

theorem foldInv_matchPhase (t : ℚ) (s : TrackerState)
    (hB : ∀ id ∈ idsOf (markUnmatched s.tracked_vehicles), id < s.next_id)
    (hN : (idsOf (markUnmatched s.tracked_vehicles)).Nodup)
    (hok : ∀ p ∈ s.tracked_vehicles, TrackOK p.2) (dets : List Det) :
    FoldInv s.next_id (markUnmatched s.tracked_vehicles) (matchPhase t s dets) := by
  have hinit : FoldInv s.next_id (markUnmatched s.tracked_vehicles) (initFold s) := by
    refine ⟨rfl, le_refl _, ?_, ?_, ?_, ?_, ?_, ?_, ?_, ?_, ?_, ?_, ?_⟩
    · intro p hp
      cases hp
    · intro p hp
      cases hp
    · simp [initFold]
    · intro p hp hm
      obtain ⟨v, hv, hp2⟩ := mem_markUnmatched hp
      rw [hp2] at hm
      cases hm
    · intro p hp
      exact ⟨p.2, hp, fun h => h⟩
    · intro p hp
      obtain ⟨v, hv, hp2⟩ := mem_markUnmatched hp
      rw [hp2]
      exact hok (p.1, v) hv
    · intro p hp
      cases hp
    · intro p hp _
      cases hp
    · intro a ha
      cases ha
    · intro a ha
      cases ha
    · simp [initFold]
  unfold matchPhase
  exact foldInv_foldl t s.next_id (markUnmatched s.tracked_vehicles) hB hN dets
    (initFold s) hinit

/-! ## Consequences at the level of one whole `update` call -/

theorem update_store_eq (s : TrackerState) (dets : List Det) (t : ℚ) :
    (update s dets t).1.tracked_vehicles =
      keepStale t (matchPhase t s dets).upd (matchPhase t s dets).old := rfl

theorem update_next_eq (s : TrackerState) (dets : List Det) (t : ℚ) :
    (update s dets t).1.next_id = (matchPhase t s dets).next_id := rfl

theorem update_alerts_eq (s : TrackerState) (dets : List Det) (t : ℚ) :
    (update s dets t).2.2 = (matchPhase t s dets).alerts := rfl

theorem storeInv_hyps (s : TrackerState) (hS : StoreInv s) :
    (∀ id ∈ idsOf (markUnmatched s.tracked_vehicles), id < s.next_id) ∧
      (idsOf (markUnmatched s.tracked_vehicles)).Nodup := by
  constructor
  · rw [idsOf_markUnmatched]
    intro id hid
    rcases List.mem_map.mp hid with ⟨p, hp, rfl⟩
    exact hS.bound p hp
  · rw [idsOf_markUnmatched]
    exact hS.nodup

theorem mem_old_trackedIds (s : TrackerState) (dets : List Det) (t : ℚ)
    {p : ℕ × Track} (hp : p ∈ (matchPhase t s dets).old) (hS : StoreInv s) :
    p.1 ∈ trackedIds s := by
  obtain ⟨hB, hN⟩ := storeInv_hyps s hS
  have hF := foldInv_matchPhase t s hB hN hS.ok dets
  have : p.1 ∈ idsOf (matchPhase t s dets).old := List.mem_map.mpr ⟨p, hp, rfl⟩
  rw [hF.old_ids, idsOf_markUnmatched] at this
  exact this

theorem trackedIds_lower (s : TrackerState) (hS : StoreInv s) :
    ∀ id ∈ trackedIds s, 1 ≤ id := by
  intro id hid
  rcases List.mem_map.mp hid with ⟨p, hp, rfl⟩
  exact hS.lower p hp

theorem trackedIds_bound (s : TrackerState) (hS : StoreInv s) :
    ∀ id ∈ trackedIds s, id < s.next_id := by
  intro id hid
  rcases List.mem_map.mp hid with ⟨p, hp, rfl⟩
  exact hS.bound p hp

/-- Every track in the post-frame store either carries an id of the
pre-frame store (and descends from that track, with the alert latch only
ever raised), or is a freshly allocated track with a fresh id and a clear
latch. -/
theorem update_mem_cases (s : TrackerState) (dets : List Det) (t : ℚ)
    (hS : StoreInv s) (p : ℕ × Track)
    (hp : p ∈ (update s dets t).1.tracked_vehicles) :
    (p.1 ∈ trackedIds s ∧ ∃ v0, (p.1, v0) ∈ s.tracked_vehicles ∧
        (v0.alerted = true → p.2.alerted = true)) ∨
      (s.next_id ≤ p.1 ∧ p.1 < (update s dets t).1.next_id ∧
        p.2.alerted = false ∧ p.1 ∉ trackedIds s) := by
  obtain ⟨hB, hN⟩ := storeInv_hyps s hS
  have hF := foldInv_matchPhase t s hB hN hS.ok dets
  rw [update_store_eq] at hp
  have hold_case : p ∈ (matchPhase t s dets).old →
      p.1 ∈ trackedIds s ∧ ∃ v0, (p.1, v0) ∈ s.tracked_vehicles ∧
        (v0.alerted = true → p.2.alerted = true) := by
    intro hpo
    refine ⟨mem_old_trackedIds s dets t hpo hS, ?_⟩
    obtain ⟨v0m, hv0m, himp⟩ := hF.old_prov p hpo
    obtain ⟨v0, hv0, hmeq⟩ := mem_markUnmatched hv0m
    refine ⟨v0, hv0, fun ha => himp ?_⟩
    have hme : v0m = { v0 with matched := false } := hmeq
    rw [hme]
    exact ha
  rcases (keepStale_mem t _ _ p).mp hp with hpu | ⟨hpo, _, _⟩
  · rcases hF.upd_src p hpu with hpo | ⟨h1, h2, h3⟩
    · exact Or.inl (hold_case hpo)
    · refine Or.inr ⟨h1, by rw [update_next_eq]; exact h2,
        hF.upd_fresh_alert p hpu h3, ?_⟩
      rw [hF.old_ids, idsOf_markUnmatched] at h3
      exact h3
  · exact Or.inl (hold_case hpo)

theorem storeInv_update (s : TrackerState) (dets : List Det) (t : ℚ)
    (hS : StoreInv s) :
    StoreInv (update s dets t).1 ∧ s.next_id ≤ (update s dets t).1.next_id := by
  obtain ⟨hB, hN⟩ := storeInv_hyps s hS
  have hF := foldInv_matchPhase t s hB hN hS.ok dets
  have hNold : (idsOf (matchPhase t s dets).old).Nodup := by
    rw [hF.old_ids]
    exact hN
  have hmono : s.next_id ≤ (update s dets t).1.next_id := by
    rw [update_next_eq]
    exact hF.next_ge
  refine ⟨⟨hS.pos.trans hmono, ?_, ?_, ?_, ?_⟩, hmono⟩
  · intro p hp
    rcases update_mem_cases s dets t hS p hp with ⟨hin, _⟩ | ⟨h1, _, _, _⟩
    · exact trackedIds_lower s hS p.1 hin
    · exact hS.pos.trans h1
  · intro p hp
    rcases update_mem_cases s dets t hS p hp with ⟨hin, _⟩ | ⟨_, h2, _, _⟩
    · exact lt_of_lt_of_le (trackedIds_bound s hS p.1 hin) hmono
    · exact h2
  · rw [update_store_eq, keepStale_eq_filter]
    unfold idsOf
    rw [List.map_append]
    refine List.Nodup.append hF.upd_nodup ?_ ?_
    · exact ((List.filter_sublist _).map Prod.fst).nodup hNold
    · intro a ha hb
      rcases List.mem_map.mp ha with ⟨e, he, hea⟩
      rcases List.mem_map.mp hb with ⟨q, hqf, hqa⟩
      have hq := List.mem_filter.mp hqf
      have hqc := of_decide_eq_true hq.2
      have heq1 : e.1 = q.1 := hea.trans hqa.symm
      rcases hF.upd_src e he with heo | ⟨_, _, h3⟩
      · have hqv : (e.1, q.2) ∈ (matchPhase t s dets).old := by
          rw [heq1]
          exact hq.1
        have hev : (e.1, e.2) ∈ (matchPhase t s dets).old := heo
        have : e.2 = q.2 := nodup_keys_eq hNold hev hqv
        have hmt := hF.upd_matched e he
        rw [this, hqc.1] at hmt
        cases hmt
      · refine h3 ?_
        rw [heq1]
        exact List.mem_map.mpr ⟨q, hq.1, rfl⟩
  · intro p hp
    rw [update_store_eq] at hp
    rcases (keepStale_mem t _ _ p).mp hp with hpu | ⟨hpo, _, _⟩
    · exact hF.upd_ok p hpu
    · exact hF.old_ok p hpo

theorem reachable_storeInv (s : TrackerState) (h : Reachable s) : StoreInv s := by
  induction h with
  | init =>
    refine ⟨le_refl _, ?_, ?_, ?_, ?_⟩
    · intro p hp
      cases hp
    · intro p hp
      cases hp
    · simp [initState, idsOf]
    · intro p hp
      cases hp
  | step dets t hs ih => exact (storeInv_update _ dets t ih).1

/-! ## Alert counting over runs -/

theorem countA_append (id : ℕ) (l1 l2 : List Alert) :
    countA id (l1 ++ l2) = countA id l1 + countA id l2 :=
  List.countP_append _ _ _

theorem countA_eq_zero (id : ℕ) (l : List Alert)
    (h : ∀ a ∈ l, a.track_id ≠ id) : countA id l = 0 := by
  unfold countA
  rw [List.countP_eq_zero]
  intro a ha
  simpa using h a ha

theorem countA_le_one_of_nodup (id : ℕ) (l : List Alert)
    (h : (l.map Alert.track_id).Nodup) : countA id l ≤ 1 := by
  induction l with
  | nil => simp [countA]
  | cons a l ih =>
    simp only [List.map_cons, List.nodup_cons] at h
    unfold countA at ih ⊢
    rw [List.countP_cons]
    by_cases hid : a.track_id = id
    · have hz : l.countP (fun b => b.track_id == id) = 0 := by
        rw [List.countP_eq_zero]
        intro b hb
        simp only [beq_iff_eq]
        intro hbid
        exact h.1 (List.mem_map.mpr ⟨b, hb, by rw [hbid, hid]⟩)
      simp [hz, hid]
    · simp only [beq_iff_eq, hid, if_false]
      simpa using ih h.2

theorem countA_pos_mem (id : ℕ) (l : List Alert) (h : countA id l ≠ 0) :
    ∃ a ∈ l, a.track_id = id := by
  unfold countA at h
  rcases List.countP_pos_iff.mp (Nat.pos_of_ne_zero h) with ⟨a, ha, hpa⟩
  exact ⟨a, ha, by simpa using hpa⟩

/-- Bookkeeping of the alerts emitted during one frame. -/
theorem update_alerts (s : TrackerState) (dets : List Det) (t : ℚ)
    (hS : StoreInv s) :
    (∀ a ∈ (update s dets t).2.2, a.track_id ∈ trackedIds s ∧
        ∃ v0, (a.track_id, v0) ∈ s.tracked_vehicles ∧ v0.alerted = false) ∧
      (((update s dets t).2.2.map Alert.track_id).Nodup) ∧
      (∀ p ∈ (update s dets t).1.tracked_vehicles, p.2.alerted = false →
        ∀ a ∈ (update s dets t).2.2, a.track_id ≠ p.1) := by
  obtain ⟨hB, hN⟩ := storeInv_hyps s hS
  have hF := foldInv_matchPhase t s hB hN hS.ok dets
  have hNold : (idsOf (matchPhase t s dets).old).Nodup := by
    rw [hF.old_ids]
    exact hN
  rw [update_alerts_eq]
  refine ⟨?_, hF.alerts_nodup, ?_⟩
  · intro a ha
    obtain ⟨v0m, hv0m, hv0ma⟩ := hF.alerts_base a ha
    obtain ⟨v0, hv0, hmeq⟩ := mem_markUnmatched hv0m
    have hme : v0m = { v0 with matched := false } := hmeq
    refine ⟨?_, v0, hv0, ?_⟩
    · have : a.track_id ∈ idsOf (markUnmatched s.tracked_vehicles) :=
        List.mem_map.mpr ⟨(a.track_id, v0m), hv0m, rfl⟩
      rw [idsOf_markUnmatched] at this
      exact this
    · rw [hme] at hv0ma
      exact hv0ma
  · intro p hp hpa a ha heq
    obtain ⟨v, hvold, hvm, hva⟩ := hF.alerts_wit a ha
    rw [update_store_eq] at hp
    rcases (keepStale_mem t _ _ p).mp hp with hpu | ⟨hpo, hpm, _⟩
    · rcases hF.upd_src p hpu with hpo | ⟨_, _, h3⟩
      · have hvv : (p.1, v) ∈ (matchPhase t s dets).old := by rw [← heq]; exact hvold
        have hpe : v = p.2 := nodup_keys_eq hNold hvv hpo
        rw [hpe, hpa] at hva
        cases hva
      · refine h3 ?_
        rw [← heq]
        exact List.mem_map.mpr ⟨(a.track_id, v), hvold, rfl⟩
    · have hvv : (p.1, v) ∈ (matchPhase t s dets).old := by rw [← heq]; exact hvold
      have hpe : v = p.2 := nodup_keys_eq hNold hvv hpo
      rw [hpe, hpa] at hva
      cases hva

/-- One frame preserves the run-level alert invariant. -/
theorem alertRunInv_update (s : TrackerState) (past : List Alert)
    (dets : List Det) (t : ℚ) (hA : AlertRunInv s past) :
    AlertRunInv (update s dets t).1 (past ++ (update s dets t).2.2) := by
  obtain ⟨hal1, hal2, hal3⟩ := update_alerts s dets t hA.store
  obtain ⟨hS2, hmono⟩ := storeInv_update s dets t hA.store
  refine ⟨hS2, ?_, ?_, ?_⟩
  · intro a ha
    rcases List.mem_append.mp ha with ha | ha
    · exact lt_of_lt_of_le (hA.past_bound a ha) hmono
    · exact lt_of_lt_of_le
        (trackedIds_bound s hA.store a.track_id (hal1 a ha).1) hmono
  · intro id
    rw [countA_append]
    by_cases hz : countA id (update s dets t).2.2 = 0
    · rw [hz]
      simpa using hA.once id
    · obtain ⟨a, ha, haid⟩ := countA_pos_mem id _ hz
      obtain ⟨_, v0, hv0, hv0a⟩ := hal1 a ha
      have hp0 : countA id past = 0 := by
        rw [← haid]
        exact hA.clear_latch (a.track_id, v0) hv0 hv0a
      rw [hp0]
      simpa using countA_le_one_of_nodup id _ hal2
  · intro p hp hpa
    rw [countA_append]
    have hnew : countA p.1 (update s dets t).2.2 = 0 :=
      countA_eq_zero _ _ (hal3 p hp hpa)
    have hpast : countA p.1 past = 0 := by
      rcases update_mem_cases s dets t hA.store p hp with
        ⟨_, v0, hv0, himp⟩ | ⟨h1, _, _, _⟩
      · have hv0a : v0.alerted = false := by
          cases hv0val : v0.alerted
          · rfl
          · rw [himp hv0val] at hpa
            cases hpa
        exact hA.clear_latch (p.1, v0) hv0 hv0a
      · refine countA_eq_zero _ _ ?_
        intro a ha
        exact Nat.ne_of_lt (lt_of_lt_of_le (hA.past_bound a ha) h1)
    rw [hnew, hpast]

theorem alertRunInv_init : AlertRunInv initState [] := by
  refine ⟨reachable_storeInv initState Reachable.init, ?_, ?_, ?_⟩
  · intro a ha
    cases ha
  · intro id
    simp [countA]
  · intro p hp
    cases hp

/-- Over any run, each track id occurs at most once in the alert stream. -/
theorem runTracker_alerts_once (frames : List (List Det × ℚ)) :
    ∀ (s : TrackerState) (past : List Alert), AlertRunInv s past →
      ∀ id, countA id (past ++ (runTracker s frames).2.2) ≤ 1 := by
  induction frames with
  | nil =>
    intro s past hA id
    simpa [runTracker] using hA.once id
  | cons f rest ih =>
    intro s past hA id
    show countA id (past ++ (runTracker s (f :: rest)).2.2) ≤ 1
    have hstep := alertRunInv_update s past f.1 f.2 hA
    have h2 := ih (update s f.1 f.2).1 (past ++ (update s f.1 f.2).2.2) hstep id
    unfold runTracker
    dsimp only
    rw [← List.append_assoc]
    exact h2

/-! ## Per-detection facts independent of the store invariant -/

theorem processDet_old_ids (t : ℚ) (fs : FoldState) (d : Det) :
    idsOf (processDet t fs d).old = idsOf fs.old := by
  rcases hm : (findMatch fs.old (centroid d).1 (centroid d).2 t).1 with _ | mv
  · rw [processDet_spawn_eq t fs d hm]
    rfl
  · rw [processDet_matched_eq t fs d mv hm]
    exact idsOf_replace fs.old mv.1 _

theorem processDet_next_ge (t : ℚ) (fs : FoldState) (d : Det) :
    fs.next_id ≤ (processDet t fs d).next_id := by
  rcases hm : (findMatch fs.old (centroid d).1 (centroid d).2 t).1 with _ | mv
  · rw [processDet_spawn_eq t fs d hm]
    exact Nat.le_succ _
  · rw [processDet_matched_eq t fs d mv hm]
    exact le_refl _

theorem processDet_old_bound (t : ℚ) (fs : FoldState) (d : Det)
    (h : ∀ p ∈ fs.old, p.1 < fs.next_id) :
    ∀ p ∈ (processDet t fs d).old, p.1 < (processDet t fs d).next_id := by
  rcases hm : (findMatch fs.old (centroid d).1 (centroid d).2 t).1 with _ | mv
  · rw [processDet_spawn_eq t fs d hm]
    intro p hp
    exact lt_of_lt_of_le (h p hp) (Nat.le_succ _)
  · obtain ⟨hmem, _⟩ := findMatch_mem fs.old _ _ t mv hm
    rw [processDet_matched_eq t fs d mv hm]
    intro p hp
    rcases mem_of_mem_replace hp with ⟨hp1, _⟩ | ⟨hpo, _⟩
    · rw [hp1]
      exact h mv hmem
    · exact h p hpo

theorem update_next_ge (s : TrackerState) (dets : List Det) (t : ℚ) :
    s.next_id ≤ (update s dets t).1.next_id := by
  rw [update_next_eq]
  unfold matchPhase
  have : ∀ (ds : List Det) (fs : FoldState),
      fs.next_id ≤ (ds.foldl (processDet t) fs).next_id := by
    intro ds
    induction ds with
    | nil => intro fs; exact le_refl _
    | cons d rest ih =>
      intro fs
      rw [List.foldl_cons]
      exact (processDet_next_ge t fs d).trans (ih _)
  exact this dets (initFold s)

/-! ## The routing of detections within one frame (for C10) -/

theorem affectedIds_shape (t : ℚ) :
    ∀ (ds : List Det) (fs : FoldState) (id : ℕ), id ∈ affectedIds t fs ds →
      (∃ v, (id, v) ∈ fs.old ∧ v.matched = false) ∨ fs.next_id ≤ id := by
  intro ds
  induction ds with
  | nil => intro fs id h; cases h
  | cons d rest ih =>
    intro fs id h
    rcases List.mem_cons.mp h with rfl | h
    · unfold affectedId
      rcases hm : (findMatch fs.old (centroid d).1 (centroid d).2 t).1 with _ | mv
      · exact Or.inr (le_refl _)
      · obtain ⟨hmem, hunm⟩ := findMatch_mem fs.old _ _ t mv hm
        exact Or.inl ⟨mv.2, hmem, hunm⟩
    · rcases ih (processDet t fs d) id h with ⟨v, hv, hvm⟩ | hge
      · rcases hm : (findMatch fs.old (centroid d).1 (centroid d).2 t).1 with _ | mv
        · rw [processDet_spawn_eq t fs d hm] at hv
          exact Or.inl ⟨v, hv, hvm⟩
        · rw [processDet_matched_eq t fs d mv hm] at hv
          rcases mem_of_mem_replace hv with ⟨_, hv2⟩ | ⟨hvo, _⟩
          · have hv2x : v = matchedTrack t (centroid d).1 (centroid d).2 mv.1 mv.2 := hv2
            rw [hv2x, matchedTrack_matched] at hvm
            cases hvm
          · exact Or.inl ⟨v, hvo, hvm⟩
      · exact Or.inr ((processDet_next_ge t fs d).trans hge)

theorem affectedIds_nodup (t : ℚ) :
    ∀ (ds : List Det) (fs : FoldState), (∀ p ∈ fs.old, p.1 < fs.next_id) →
      (affectedIds t fs ds).Nodup := by
  intro ds
  induction ds with
  | nil => intro fs _; exact List.nodup_nil
  | cons d rest ih =>
    intro fs hb
    rw [show affectedIds t fs (d :: rest) =
      affectedId t fs d :: affectedIds t (processDet t fs d) rest from rfl]
    refine List.nodup_cons.mpr ⟨?_, ih _ (processDet_old_bound t fs d hb)⟩
    intro hmem
    rcases affectedIds_shape t rest (processDet t fs d) _ hmem with ⟨v, hv, hvm⟩ | hge
    · unfold affectedId at hv
      rcases hm : (findMatch fs.old (centroid d).1 (centroid d).2 t).1 with _ | mv
      · rw [hm] at hv
        dsimp only at hv
        rw [processDet_spawn_eq t fs d hm] at hv
        exact absurd (hb _ hv) (lt_irrefl _)
      · rw [hm] at hv
        dsimp only at hv
        rw [processDet_matched_eq t fs d mv hm] at hv
        rcases mem_of_mem_replace hv with ⟨_, hv2⟩ | ⟨_, hne⟩
        · have hv2x : v = matchedTrack t (centroid d).1 (centroid d).2 mv.1 mv.2 := hv2
          rw [hv2x, matchedTrack_matched] at hvm
          cases hvm
        · exact hne rfl
    · unfold affectedId at hge
      rcases hm : (findMatch fs.old (centroid d).1 (centroid d).2 t).1 with _ | mv
      · rw [hm] at hge
        dsimp only at hge
        rw [processDet_spawn_eq t fs d hm] at hge
        exact absurd hge (not_le.mpr (Nat.lt_succ_self fs.next_id))
      · rw [hm] at hge
        dsimp only at hge
        obtain ⟨hmem, _⟩ := findMatch_mem fs.old _ _ t mv hm
        rw [processDet_matched_eq t fs d mv hm] at hge
        exact absurd (hb mv hmem) (not_lt.mpr hge)

/-! ## The direction rule (for C9) -/

theorem direction_eq_spec (dx dy : ℤ) : direction dx dy = specDirection dx dy := by
  unfold direction specDirection
  by_cases h1 : |dy| < |dx|
  · by_cases h2 : dx < 0
    · rw [if_pos (Or.inl ⟨h1, h2⟩), if_pos h1, if_pos h2]
    · rw [if_pos h1, if_neg h2,
        if_neg (by rintro (⟨_, hc⟩ | ⟨hge, _⟩) <;>
          [exact h2 hc; exact absurd h1 (not_lt.mpr hge)])]
  · by_cases h2 : dy < 0
    · rw [if_pos (Or.inr ⟨not_lt.mp h1, h2⟩), if_neg h1, if_pos h2]
    · rw [if_neg h1, if_neg h2,
        if_neg (by rintro (⟨hgt, _⟩ | ⟨_, hc⟩) <;> [exact h1 hgt; exact h2 hc])]

/-! ## The alert latch (for C3) -/

theorem speedAlert_isSome_iff (vid : ℕ) (v : Track) (cx cy : ℤ) (t : ℚ) :
    (speedAlert vid v cx cy t).2.isSome = true ↔
      (v.alerted = false ∧ (speedAlert vid v cx cy t).1.alerted = true) := by
  unfold speedAlert
  dsimp only
  repeat' split
  all_goals simp_all

/-! ## Reachability along runs (for C5) -/

theorem reachable_stateAt (frames : List (List Det × ℚ)) :
    ∀ s : TrackerState, Reachable s → Reachable (stateAt s frames) := by
  induction frames with
  | nil => intro s hs; exact hs
  | cons f rest ih =>
    intro s hs
    unfold stateAt
    rw [List.foldl_cons]
    exact ih _ (Reachable.step f.1 f.2 hs)

theorem stateAt_append (s : TrackerState) (f1 f2 : List (List Det × ℚ)) :
    stateAt s (f1 ++ f2) = stateAt (stateAt s f1) f2 := by
  unfold stateAt
  rw [List.foldl_append]

theorem stateAt_next_mono (f : List (List Det × ℚ)) :
    ∀ s : TrackerState, s.next_id ≤ (stateAt s f).next_id := by
  induction f with
  | nil => intro s; exact le_refl _
  | cons g rest ih =>
    intro s
    unfold stateAt
    rw [List.foldl_cons]
    exact (update_next_ge s g.1 g.2).trans (ih _)

/-! ## Evaluation helpers for concrete runs -/

theorem scanStep_skip_matched (t : ℚ) (cx cy : ℤ)
    (acc : Option (ℕ × Track) × Option ℝ) (p : ℕ × Track)
    (h : p.2.matched = true) : scanStep t cx cy acc p = acc := by
  unfold scanStep
  rw [if_pos h]

theorem speedAlert_skip (vid : ℕ) (v : Track) (cx cy : ℤ) (t : ℚ) (q : ℤ × ℤ × ℚ)
    (hl : v.positions.getLast? = some q) (hle : t - q.2.2 ≤ 0) :
    speedAlert vid v cx cy t = (v, none) := by
  unfold speedAlert
  rw [hl]
  dsimp only
  rw [if_neg (not_lt.mpr hle)]

theorem speedAlert_reject (vid : ℕ) (v : Track) (cx cy : ℤ) (t : ℚ) (q : ℤ × ℤ × ℚ)
    (hl : v.positions.getLast? = some q) (hpos : 0 < t - q.2.2)
    (hband : ¬((MIN_SPEED_THRESHOLD : ℝ) < speedSample q.1 q.2.1 q.2.2 cx cy t ∧
      speedSample q.1 q.2.1 q.2.2 cx cy t < (MAX_SPEED_THRESHOLD : ℝ))) :
    speedAlert vid v cx cy t = (v, none) := by
  unfold speedAlert
  rw [hl]
  dsimp only
  rw [if_pos hpos, if_neg hband]

theorem matchedTrack_of_unchanged (t : ℚ) (cx cy : ℤ) (vid : ℕ) (v0 : Track)
    (h : speedAlert vid { v0 with matched := true } cx cy t =
      ({ v0 with matched := true }, none)) :
    matchedTrack t cx cy vid v0 =
      { v0 with
        matched := true
        last_position := (cx, cy, t)
        positions := v0.positions ++ [(cx, cy, t)] } := by
  unfold matchedTrack
  rw [h]

theorem applyMatch_of_unchanged (t : ℚ) (cx cy : ℤ) (conf : ℝ) (vid : ℕ)
    (v0 : Track) (fs : FoldState)
    (h : speedAlert vid { v0 with matched := true } cx cy t =
      ({ v0 with matched := true }, none)) :
    applyMatch t cx cy conf vid v0 fs =
      { old := fs.old.map fun p => if p.1 = vid then
          (vid, { v0 with
                  matched := true
                  last_position := (cx, cy, t)
                  positions := v0.positions ++ [(cx, cy, t)] }) else p
        upd := fs.upd ++ [(vid, { v0 with
                  matched := true
                  last_position := (cx, cy, t)
                  positions := v0.positions ++ [(cx, cy, t)] })]
        next_id := fs.next_id
        results := fs.results ++ (emitResult vid
          { v0 with
            matched := true
            last_position := (cx, cy, t)
            positions := v0.positions ++ [(cx, cy, t)] } cx cy t conf).toList
        alerts := fs.alerts } := by
  unfold applyMatch
  rw [matchedTrack_of_unchanged t cx cy vid v0 h, h]
  simp

/-! ## Concrete geometry values -/

theorem hyp0 : hypot 0 0 = 0 := by
  rw [hypot_x]
  norm_num

theorem hyp20 : hypot 20 0 = 20 := by
  rw [hypot_x]
  norm_num

theorem hyp50 : hypot 50 0 = 50 := by
  rw [hypot_x]
  norm_num

theorem hyp80 : hypot 80 0 = 80 := by
  rw [hypot_x]
  norm_num

theorem hyp80n : hypot (-80) 0 = 80 := by
  rw [hypot_x]
  norm_num

theorem hyp160 : hypot 160 0 = 160 := by
  rw [hypot_x]
  norm_num

/-! ## Evaluation of the C1 counterexample run -/

theorem cexS1_eq :
    cexS1 = ⟨[(1, seedTrack 1 0 0 (1 / 5)), (2, seedTrack 2 160 0 (1 / 5))], 3⟩ := rfl

theorem cex_mark1 :
    markUnmatched cexS1.tracked_vehicles =
      [(1, seedTrackU 1 0 0 (1 / 5)), (2, seedTrackU 2 160 0 (1 / 5))] := rfl

theorem cex_findMatch_frame2 :
    findMatch (markUnmatched cexS1.tracked_vehicles) 160 0 (3 / 10) =
      (some (2, seedTrackU 2 160 0 (1 / 5)),
       some (candDist 160 0 (2, seedTrackU 2 160 0 (1 / 5)))) := by
  rw [cex_mark1]
  unfold findMatch
  rw [List.foldl_cons, List.foldl_cons, List.foldl_nil]
  rw [scanStep_ungated (3 / 10) 160 0 (none, none) (1, seedTrackU 1 0 0 (1 / 5)) (by
    intro hg
    simp only [gatedCandidate, Bool.and_eq_true, Bool.not_eq_true',
      decide_eq_true_eq] at hg
    have hd := hg.2
    rw [show candDist 160 0 (1, seedTrackU 1 0 0 (1 / 5)) = hypot 160 0 from rfl,
      hyp160] at hd
    norm_num at hd)]
  rw [scanStep_gated (3 / 10) 160 0 (none, none) (2, seedTrackU 2 160 0 (1 / 5)) rfl
    (show (3 : ℚ) / 10 - 1 / 5 < 1 by norm_num) (by
      rw [show candDist 160 0 (2, seedTrackU 2 160 0 (1 / 5)) = hypot 0 0 from rfl,
        hyp0]
      norm_num)]

theorem cex_sample_frame2 : speedSample 160 0 (1 / 5) 160 0 (3 / 10) = 0 := by
  unfold speedSample
  rw [show hypot (160 - 160) (0 - 0) = hypot 0 0 from rfl, hyp0]
  norm_num

theorem cex_speedAlert_frame2 :
    speedAlert 2 { seedTrackU 2 160 0 (1 / 5) with matched := true } 160 0 (3 / 10) =
      ({ seedTrackU 2 160 0 (1 / 5) with matched := true }, none) := by
  refine speedAlert_reject 2 _ 160 0 (3 / 10) (160, 0, 1 / 5) rfl
    (show (0 : ℚ) < 3 / 10 - 1 / 5 by norm_num) ?_
  show ¬((MIN_SPEED_THRESHOLD : ℝ) < speedSample 160 0 (1 / 5) 160 0 (3 / 10) ∧
    speedSample 160 0 (1 / 5) 160 0 (3 / 10) < (MAX_SPEED_THRESHOLD : ℝ))
  rw [cex_sample_frame2]
  norm_num [MIN_SPEED_THRESHOLD, MAX_SPEED_THRESHOLD]

theorem cexS2_eq :
    cexS2 = ⟨[(2, cexTb2), (1, seedTrackU 1 0 0 (1 / 5))], 3⟩ := by
  unfold cexS2
  have hfm : (findMatch (initFold cexS1).old (centroid (mkDet 160 0)).1
      (centroid (mkDet 160 0)).2 (3 / 10)).1 = some (2, seedTrackU 2 160 0 (1 / 5)) := by
    rw [show findMatch (initFold cexS1).old (centroid (mkDet 160 0)).1
        (centroid (mkDet 160 0)).2 (3 / 10) =
      findMatch (markUnmatched cexS1.tracked_vehicles) 160 0 (3 / 10) from rfl]
    rw [cex_findMatch_frame2]
  have hpd : processDet (3 / 10) (initFold cexS1) (mkDet 160 0) =
      { old := [(1, seedTrackU 1 0 0 (1 / 5)), (2, cexTb2)]
        upd := [(2, cexTb2)]
        next_id := 3
        results := []
        alerts := [] } := by
    rw [processDet_matched_eq (3 / 10) (initFold cexS1) (mkDet 160 0)
      (2, seedTrackU 2 160 0 (1 / 5)) hfm]
    rw [applyMatch_of_unchanged (3 / 10) (centroid (mkDet 160 0)).1
      (centroid (mkDet 160 0)).2 (mkDet 160 0).conf 2
      (seedTrackU 2 160 0 (1 / 5)) (initFold cexS1) cex_speedAlert_frame2]
    rw [show (initFold cexS1).old = markUnmatched cexS1.tracked_vehicles from rfl,
      cex_mark1]
    rfl
  rw [show (update cexS1 [mkDet 160 0] (3 / 10)).1 =
    ⟨keepStale (3 / 10) (processDet (3 / 10) (initFold cexS1) (mkDet 160 0)).upd
      (processDet (3 / 10) (initFold cexS1) (mkDet 160 0)).old,
     (processDet (3 / 10) (initFold cexS1) (mkDet 160 0)).next_id⟩ from rfl]
  rw [hpd]
  rw [keepStale_eq_filter]
  rw [List.filter_cons_of_pos (by
    simp only [decide_eq_true_eq]
    exact ⟨rfl, show (3 : ℚ) / 10 - 1 / 5 < 3 by norm_num⟩)]
  rw [List.filter_cons_of_neg (by
    simp only [decide_eq_true_eq, not_and]
    intro hc
    cases hc)]
  rfl

theorem cex_mark2 :
    markUnmatched cexS2.tracked_vehicles =
      [(2, { cexTb2 with matched := false }), (1, seedTrackU 1 0 0 (1 / 5))] := by
  rw [cexS2_eq]
  rfl

theorem cex_findMatch_frame3 :
    (findMatch (markUnmatched cexS2.tracked_vehicles) 80 0 (2 / 5)).1 =
      some (2, { cexTb2 with matched := false }) := by
  rw [cex_mark2]
  unfold findMatch
  rw [List.foldl_cons, List.foldl_cons, List.foldl_nil]
  rw [scanStep_gated (2 / 5) 80 0 (none, none) (2, { cexTb2 with matched := false }) rfl
    (show (2 : ℚ) / 5 - 3 / 10 < 1 by norm_num) (by
      rw [show candDist 80 0 (2, { cexTb2 with matched := false }) =
        hypot (-80) 0 from rfl, hyp80n]
      norm_num)]
  rw [scanStep_gated (2 / 5) 80 0
    (some (2, { cexTb2 with matched := false }),
     some (candDist 80 0 (2, { cexTb2 with matched := false })))
    (1, seedTrackU 1 0 0 (1 / 5)) rfl
    (show (2 : ℚ) / 5 - 1 / 5 < 1 by norm_num) (by
      rw [show candDist 80 0 (1, seedTrackU 1 0 0 (1 / 5)) = hypot 80 0 from rfl,
        hyp80]
      norm_num)]
  dsimp only
  rw [show candDist 80 0 (1, seedTrackU 1 0 0 (1 / 5)) = hypot 80 0 from rfl,
    show candDist 80 0 (2, { cexTb2 with matched := false }) = hypot (-80) 0 from rfl,
    hyp80, hyp80n]
  rw [if_neg (lt_irrefl (80 : ℝ))]

/-! ## Claim theorems -/

/-- C1, amended.  For every store, detection centroid and frame time, the
matcher's selection equals `List.argmin` of the Euclidean centroid
distance over the tracks that pass the unmatched/time/distance gates.
`List.argmin` keeps the earlier element on ties, so ties on distance are
broken by the store's iteration (insertion) order, not by ascending track
id as the original claim stated; the minimum-distance part of the claim
holds as stated. -/
theorem C1_matcher_selects_argmin (store : List (ℕ × Track)) (cx cy : ℤ) (t : ℚ) :
    (findMatch store cx cy t).1 =
      (store.filter (gatedCandidate cx cy t)).argmin (candDist cx cy) :=
  findMatch_eq_argmin store cx cy t

/-- C2, amended.  The aggregation keeps exactly one record per distinct
vehicle id occurring in the input, namely the record `List.argmax` of the
speed picks over that id's records.  `List.argmax` keeps the earlier
element on ties, so equal speeds keep the record with the *earlier*
timestamp (records arrive in frame order), not the later one as the
original claim stated. -/
theorem C2_aggregate_keeps_first_max (recs : List VehicleRec) :
    ((aggregate recs).map VehicleRec.id).Nodup ∧
      (∀ id, id ∈ (aggregate recs).map VehicleRec.id ↔ id ∈ recs.map VehicleRec.id) ∧
      (∀ id, lookupRec (aggregate recs) id =
        (recs.filter fun r => r.id == id).argmax fun r => r.speed) := by
  have hmap : (aggregate recs).map VehicleRec.id =
      (recs.foldl aggStep []).map Prod.fst := by
    unfold aggregate
    rw [List.map_map]
    exact List.map_congr_left fun p hp => (agg_fold_inv recs).1 p hp
  refine ⟨?_, ?_, fun id => aggregate_lookup recs id⟩
  · rw [hmap]
    exact (agg_fold_inv recs).2.1
  · intro id
    rw [hmap]
    constructor
    · intro hmem
      by_contra hnot
      have hfil : recs.filter (fun r => r.id == id) = [] := by
        rw [List.filter_eq_nil_iff]
        intro r hr
        simp only [beq_iff_eq]
        intro hrid
        exact hnot (List.mem_map.mpr ⟨r, hr, hrid⟩)
      have hlook := (agg_fold_inv recs).2.2 id
      rw [hfil] at hlook
      simp only [List.argmax_nil] at hlook
      rw [lookup_eq_none_iff] at hlook
      exact hlook hmem
    · intro hmem
      rcases List.mem_map.mp hmem with ⟨r, hr, hrid⟩
      by_contra hnot
      have hlook : (recs.foldl aggStep []).lookup id = none :=
        (lookup_eq_none_iff _ _).mpr hnot
      rw [(agg_fold_inv recs).2.2 id] at hlook
      rw [List.argmax_eq_none] at hlook
      have hmemf : r ∈ recs.filter fun q => q.id == id :=
        List.mem_filter.mpr ⟨hr, by simp [hrid]⟩
      rw [hlook] at hmemf
      cases hmemf

/-- C3, amended.  For the HTTP-variant tracker (the `alerted` latch of
processing.py lines 89-94), over any run from a fresh tracker each track
id occurs at most once in the alert stream, and within the speed/alert
block an alert is emitted exactly when the latch transitions from clear
to set.  The original claim also cited the Blob variant, which has no
latch and re-emits every frame; see the counterexample. -/
theorem C3_alert_one_shot :
    (∀ (frames : List (List Det × ℚ)) (id : ℕ),
        countA id (runTracker initState frames).2.2 ≤ 1) ∧
      ∀ (vid : ℕ) (v : Track) (cx cy : ℤ) (t : ℚ),
        (speedAlert vid v cx cy t).2.isSome = true ↔
          (v.alerted = false ∧ (speedAlert vid v cx cy t).1.alerted = true) := by
  constructor
  · intro frames id
    have h := runTracker_alerts_once frames initState [] alertRunInv_init id
    rwa [List.nil_append] at h
  · exact speedAlert_isSome_iff

/-- C4.  In every reachable tracker state, every track's speed history is
bounded by the smoothing window (the block at lines 83-87 appends the new
sample on the right and pops the oldest on the left when the window
overflows), the `speed` key is absent exactly until the first valid
sample, and whenever `speed` is present it equals the arithmetic mean of
the current history. -/
theorem C4_speed_invariant (s : TrackerState) (hs : Reachable s)
    (p : ℕ × Track) (hp : p ∈ s.tracked_vehicles) :
    p.2.speed_history.length ≤ SPEED_SMOOTHING_WINDOW ∧
      (p.2.speed = none ↔ p.2.speed_history = []) ∧
      (∀ sp, p.2.speed = some sp →
        sp = p.2.speed_history.sum / (p.2.speed_history.length : ℝ)) := by
  obtain ⟨h1, h2⟩ := (reachable_storeInv s hs).ok p hp
  refine ⟨h1, ?_, ?_⟩
  · rcases hsp : p.2.speed with _ | sp
    · rw [hsp] at h2
      exact ⟨fun _ => h2, fun _ => rfl⟩
    · rw [hsp] at h2
      constructor
      · intro hc
        cases hc
      · intro hc
        exact absurd hc h2.1
  · intro sp hsp
    rw [hsp] at h2
    exact h2.2

/-- C5.  The id counter never decreases along a run; in every state along
a run all track ids are positive, below the counter, and pairwise
distinct; and an id that enters the store at some update (a freshly
allocated id) was not present in any earlier state of the run: ids are
never reused, even after removal. -/
theorem C5_ids_monotone_fresh (f1 f2 : List (List Det × ℚ)) :
    ((stateAt initState f1).next_id ≤ (stateAt initState (f1 ++ f2)).next_id) ∧
      (∀ p ∈ (stateAt initState f1).tracked_vehicles,
        1 ≤ p.1 ∧ p.1 < (stateAt initState f1).next_id) ∧
      (trackedIds (stateAt initState f1)).Nodup ∧
      (∀ (dets : List Det) (t : ℚ) (id : ℕ),
        id ∈ trackedIds (update (stateAt initState (f1 ++ f2)) dets t).1 →
        id ∉ trackedIds (stateAt initState (f1 ++ f2)) →
        id ∉ trackedIds (stateAt initState f1)) := by
  have hr1 : Reachable (stateAt initState f1) :=
    reachable_stateAt f1 initState Reachable.init
  have hr12 : Reachable (stateAt initState (f1 ++ f2)) :=
    reachable_stateAt (f1 ++ f2) initState Reachable.init
  have hS1 := reachable_storeInv _ hr1
  have hS12 := reachable_storeInv _ hr12
  refine ⟨?_, ?_, hS1.nodup, ?_⟩
  · rw [stateAt_append]
    exact stateAt_next_mono f2 _
  · intro p hp
    exact ⟨hS1.lower p hp, hS1.bound p hp⟩
  · intro dets t id hin hout
    rcases List.mem_map.mp hin with ⟨p, hp, hpid⟩
    rcases update_mem_cases _ dets t hS12 p hp with ⟨hold, _⟩ | ⟨hge, _, _, _⟩
    · rw [hpid] at hold
      exact absurd hold hout
    · intro hmem1
      have hlt : id < (stateAt initState f1).next_id :=
        trackedIds_bound _ hS1 id hmem1
      have hle : (stateAt initState f1).next_id ≤
          (stateAt initState (f1 ++ f2)).next_id := by
        rw [stateAt_append]
        exact stateAt_next_mono f2 _
      rw [hpid] at hge
      omega

/-- C7.  After the matching loop of a frame, every track that was matched
in that frame is retained, and an unmatched track is retained iff its
last position is strictly less than the 3-second grace period old;
equivalently, pruning removes exactly the unmatched tracks whose elapsed
time since `last_seen` is at least the grace period. -/
theorem C7_prune_exact (s : TrackerState) (hs : Reachable s) (dets : List Det)
    (t : ℚ) (p : ℕ × Track) (hp : p ∈ (matchPhase t s dets).old) :
    (p.2.matched = true → p ∈ (update s dets t).1.tracked_vehicles) ∧
      (p.2.matched = false →
        (p ∈ (update s dets t).1.tracked_vehicles ↔
          t - p.2.last_position.2.2 < 3)) := by
  have hS := reachable_storeInv s hs
  obtain ⟨hB, hN⟩ := storeInv_hyps s hS
  have hF := foldInv_matchPhase t s hB hN hS.ok dets
  constructor
  · intro hm
    rw [update_store_eq]
    exact (keepStale_mem t _ _ p).mpr (Or.inl (hF.old_matched_in_upd p hp hm))
  · intro hm
    constructor
    · intro hmem
      rw [update_store_eq] at hmem
      rcases (keepStale_mem t _ _ p).mp hmem with hpu | ⟨_, _, hrec⟩
      · have := hF.upd_matched p hpu
        rw [hm] at this
        cases this
      · exact hrec
    · intro hrec
      rw [update_store_eq]
      exact (keepStale_mem t _ _ p).mpr (Or.inr ⟨hp, hm, hrec⟩)

/-- C9.  Whenever the per-frame emission (lines 100-116) produces a
record, its direction label is the specification's dominant-axis rule
applied to the displacement between the track's first and most recent
recorded positions: the axis with the larger absolute displacement
decides, and a negative displacement on it gives "inbound", a
non-negative one "outbound". -/
theorem C9_direction_dominant_axis (vid : ℕ) (v : Track) (cx cy : ℤ) (t : ℚ)
    (conf : ℝ) (r : VehicleRec) (h : emitResult vid v cx cy t conf = some r) :
    r.direction =
      specDirection
        ((v.positions.getLastD (0, 0, 0)).1 - (v.positions.headD (0, 0, 0)).1)
        ((v.positions.getLastD (0, 0, 0)).2.1 - (v.positions.headD (0, 0, 0)).2.1) := by
  unfold emitResult at h
  rcases hsp : v.speed with _ | sp
  · rw [hsp] at h
    cases h
  · rw [hsp] at h
    dsimp only at h
    split at h
    · rw [Option.some_inj] at h
      rw [← h]
      exact direction_eq_spec _ _
    · cases h

/-- C10.  Within a single `update` call, the ids the successive detections
are routed to (matched track id or freshly spawned id) are pairwise
distinct — two detections of one frame, even with identical centroids,
never land on the same track — and the candidate set never grows during
the frame: a spawned track goes to the next-frame store only. -/
theorem C10_one_track_per_detection (s : TrackerState) (dets : List Det) (t : ℚ)
    (hb : ∀ p ∈ s.tracked_vehicles, p.1 < s.next_id) :
    (affectedIds t (initFold s) dets).Nodup ∧
      ∀ (fs : FoldState) (d : Det), idsOf (processDet t fs d).old = idsOf fs.old := by
  constructor
  · refine affectedIds_nodup t dets (initFold s) ?_
    intro p hp
    obtain ⟨v, hv, _⟩ := mem_markUnmatched hp
    exact hb (p.1, v) hv
  · exact fun fs d => processDet_old_ids t fs d

/-- C1 counterexample.  After two frames the store's iteration order is
[2, 1] (pruning re-appended the unmatched track 1 after the matched track
2).  At frame 3 a detection at (80, 0) sees both tracks pass the
unmatched/time/distance gates at the exact same distance of 80 px, and
the matcher selects track 2 — the first in store order — not track 1,
the smaller id.  This refutes the ascending-id tie-break of the claim. -/
theorem C1_counterexample :
    trackedIds cexS2 = [2, 1] ∧
      gatedCandidate 80 0 (2 / 5) (2, { cexTb2 with matched := false }) = true ∧
      gatedCandidate 80 0 (2 / 5) (1, seedTrackU 1 0 0 (1 / 5)) = true ∧
      candDist 80 0 (2, { cexTb2 with matched := false }) =
        candDist 80 0 (1, seedTrackU 1 0 0 (1 / 5)) ∧
      ((findMatch (markUnmatched cexS2.tracked_vehicles) 80 0 (2 / 5)).1).map
          Prod.fst = some 2 := by
  refine ⟨?_, ?_, ?_, ?_, ?_⟩
  · rw [cexS2_eq]
    rfl
  · simp only [gatedCandidate, Bool.and_eq_true, Bool.not_eq_true', decide_eq_true_eq]
    refine ⟨⟨trivial, show (2 : ℚ) / 5 - 3 / 10 < 1 by norm_num⟩, ?_⟩
    rw [show candDist 80 0 (2, { cexTb2 with matched := false }) =
      hypot (-80) 0 from rfl, hyp80n]
    norm_num
  · simp only [gatedCandidate, Bool.and_eq_true, Bool.not_eq_true', decide_eq_true_eq]
    refine ⟨⟨rfl, show (2 : ℚ) / 5 - 1 / 5 < 1 by norm_num⟩, ?_⟩
    rw [show candDist 80 0 (1, seedTrackU 1 0 0 (1 / 5)) = hypot 80 0 from rfl, hyp80]
    norm_num
  · rw [show candDist 80 0 (2, { cexTb2 with matched := false }) =
      hypot (-80) 0 from rfl,
      show candDist 80 0 (1, seedTrackU 1 0 0 (1 / 5)) = hypot 80 0 from rfl,
      hyp80n, hyp80]
  · rw [cex_findMatch_frame3]
    rfl

/-- C2 counterexample.  Two records of the same vehicle with equal speeds
at timestamps 1 and 2: the aggregation keeps the first (earlier) record,
not the later one as the claim states, because the comparison of line 232
is strict. -/
theorem C2_counterexample :
    recA.id = recB.id ∧ recA.speed = recB.speed ∧
      recA.timestamp < recB.timestamp ∧ aggregate [recA, recB] = [recA] := by
  refine ⟨rfl, rfl, by show (1 : ℚ) < 2; norm_num, ?_⟩
  unfold aggregate
  rw [List.foldl_cons, List.foldl_cons, List.foldl_nil]
  rw [show aggStep [] recA = [(1, recA)] from rfl]
  have h2 : aggStep [(1, recA)] recB = [(1, recA)] := by
    unfold aggStep
    rw [show List.lookup recB.id [(1, recA)] = some recA from rfl]
    dsimp only
    rw [if_neg (show ¬(recA.speed < recB.speed) from lt_irrefl (50 : ℝ))]
  rw [h2]
  rfl

/-! ## Witness run for C4, C6 and C7: one detection at the origin -/

theorem wState_eq : wState = ⟨[(1, seedTrack 1 0 0 1)], 2⟩ := rfl

theorem wState_findMatch :
    (findMatch (markUnmatched wState.tracked_vehicles) 0 0 1).1 =
      some (1, seedTrackU 1 0 0 1) := by
  rw [show markUnmatched wState.tracked_vehicles = [(1, seedTrackU 1 0 0 1)] from rfl]
  unfold findMatch
  rw [List.foldl_cons, List.foldl_nil]
  rw [scanStep_gated 1 0 0 (none, none) (1, seedTrackU 1 0 0 1) rfl
    (show (1 : ℚ) - 1 < 1 by norm_num) (by
      rw [show candDist 0 0 (1, seedTrackU 1 0 0 1) = hypot 0 0 from rfl, hyp0]
      norm_num)]

/-- C6.  When the matcher routes a detection to a track whose previous
position is `q`, and either the elapsed time since `q` is zero or
negative, or the raw sample falls outside the plausibility band, the
speed/alert block leaves the track unchanged (no change to
`speed_history` or `speed`, no alert), and the track stays alive: it is
stored in the frame's output state with only its matched flag, last
position and position list updated. -/
theorem C6_guard_discard (s : TrackerState) (d : Det) (t : ℚ) (vid : ℕ)
    (v : Track) (q : ℤ × ℤ × ℚ)
    (hm : (findMatch (markUnmatched s.tracked_vehicles)
      (centroid d).1 (centroid d).2 t).1 = some (vid, v))
    (hl : v.positions.getLast? = some q)
    (hskip : t - q.2.2 ≤ 0 ∨
      speedSample q.1 q.2.1 q.2.2 (centroid d).1 (centroid d).2 t ≤
        (MIN_SPEED_THRESHOLD : ℝ) ∨
      (MAX_SPEED_THRESHOLD : ℝ) ≤
        speedSample q.1 q.2.1 q.2.2 (centroid d).1 (centroid d).2 t) :
    speedAlert vid { v with matched := true } (centroid d).1 (centroid d).2 t =
        ({ v with matched := true }, none) ∧
      (vid, { v with
              matched := true
              last_position := ((centroid d).1, (centroid d).2, t)
              positions := v.positions ++ [((centroid d).1, (centroid d).2, t)] }) ∈
        (update s [d] t).1.tracked_vehicles := by
  have hsa : speedAlert vid { v with matched := true }
      (centroid d).1 (centroid d).2 t = ({ v with matched := true }, none) := by
    by_cases hel : t - q.2.2 ≤ 0
    · exact speedAlert_skip vid _ _ _ t q hl hel
    · have hband : speedSample q.1 q.2.1 q.2.2 (centroid d).1 (centroid d).2 t ≤
          (MIN_SPEED_THRESHOLD : ℝ) ∨
          (MAX_SPEED_THRESHOLD : ℝ) ≤
            speedSample q.1 q.2.1 q.2.2 (centroid d).1 (centroid d).2 t := by
        rcases hskip with h | h
        · exact absurd h hel
        · exact h
      refine speedAlert_reject vid _ _ _ t q hl (lt_of_not_le hel) ?_
      rintro ⟨h1, h2⟩
      rcases hband with h | h
      · exact absurd h1 (not_lt.mpr h)
      · exact absurd h2 (not_lt.mpr h)
  refine ⟨hsa, ?_⟩
  rw [update_store_eq]
  refine (keepStale_mem t _ _ _).mpr (Or.inl ?_)
  rw [show matchPhase t s [d] = processDet t (initFold s) d from rfl]
  rw [processDet_matched_eq t (initFold s) d (vid, v) hm]
  rw [applyMatch_of_unchanged t (centroid d).1 (centroid d).2 d.conf vid v
    (initFold s) hsa]
  simp [initFold]

/-- Witness for C6: at `t = 1` a second detection at the track's own
position gives zero elapsed time, so the sample is skipped and the track
survives with an empty speed history. -/
theorem C6_guard_discard_witness :
    speedAlert 1 { seedTrackU 1 0 0 1 with matched := true } 0 0 1 =
        ({ seedTrackU 1 0 0 1 with matched := true }, none) ∧
      (1, { seedTrackU 1 0 0 1 with
            matched := true
            last_position := (0, 0, 1)
            positions := (seedTrackU 1 0 0 1).positions ++ [(0, 0, 1)] }) ∈
        (update wState [mkDet 0 0] 1).1.tracked_vehicles :=
  C6_guard_discard wState (mkDet 0 0) 1 1 (seedTrackU 1 0 0 1) (0, 0, 1)
    wState_findMatch rfl (Or.inl (by show (1 : ℚ) - 1 ≤ 0; norm_num))

/-! ## Evaluation of the C8 run: a 50-pixel jump in one 1/25 s frame -/

theorem C8_sample_value : speedSample 0 0 (1 / 25) 50 0 (2 / 25) = 18000 / 49 := by
  unfold speedSample
  dsimp only
  rw [show hypot (50 - 0) (0 - 0) = hypot 50 0 from rfl, hyp50]
  rw [show ((PIXELS_PER_METER : ℚ) : ℝ) = 49 / 4 by
    norm_num [PIXELS_PER_METER, PIXELS_DASHED_LINE, DASHED_LINE_DISTANCE]]
  rw [show ((2 / 25 - 1 / 25 : ℚ) : ℝ) = 1 / 25 by norm_num]
  norm_num

theorem c8_mark1 :
    markUnmatched (update initState [mkDet 0 0] (1 / 25)).1.tracked_vehicles =
      [(1, seedTrackU 1 0 0 (1 / 25))] := rfl

theorem c8_findMatch :
    findMatch (markUnmatched (update initState [mkDet 0 0] (1 / 25)).1.tracked_vehicles)
        50 0 (2 / 25) =
      (some (1, seedTrackU 1 0 0 (1 / 25)),
       some (candDist 50 0 (1, seedTrackU 1 0 0 (1 / 25)))) := by
  rw [c8_mark1]
  unfold findMatch
  rw [List.foldl_cons, List.foldl_nil]
  rw [scanStep_gated (2 / 25) 50 0 (none, none) (1, seedTrackU 1 0 0 (1 / 25)) rfl
    (show (2 : ℚ) / 25 - 1 / 25 < 1 by norm_num) (by
      rw [show candDist 50 0 (1, seedTrackU 1 0 0 (1 / 25)) = hypot 50 0 from rfl,
        hyp50]
      norm_num)]

theorem c8_speedAlert :
    speedAlert 1 { seedTrackU 1 0 0 (1 / 25) with matched := true } 50 0 (2 / 25) =
      ({ seedTrackU 1 0 0 (1 / 25) with matched := true }, none) := by
  refine speedAlert_reject 1 _ 50 0 (2 / 25) (0, 0, 1 / 25) rfl
    (show (0 : ℚ) < 2 / 25 - 1 / 25 by norm_num) ?_
  show ¬((MIN_SPEED_THRESHOLD : ℝ) < speedSample 0 0 (1 / 25) 50 0 (2 / 25) ∧
    speedSample 0 0 (1 / 25) 50 0 (2 / 25) < (MAX_SPEED_THRESHOLD : ℝ))
  rw [C8_sample_value]
  norm_num [MIN_SPEED_THRESHOLD, MAX_SPEED_THRESHOLD]

theorem c8_state2 :
    (update (update initState [mkDet 0 0] (1 / 25)).1 [mkDet 50 0] (2 / 25)).1 =
      ⟨[(1, c8Track)], 2⟩ := by
  have hfm : (findMatch (initFold (update initState [mkDet 0 0] (1 / 25)).1).old
      (centroid (mkDet 50 0)).1 (centroid (mkDet 50 0)).2 (2 / 25)).1 =
      some (1, seedTrackU 1 0 0 (1 / 25)) := by
    rw [show findMatch (initFold (update initState [mkDet 0 0] (1 / 25)).1).old
        (centroid (mkDet 50 0)).1 (centroid (mkDet 50 0)).2 (2 / 25) =
      findMatch (markUnmatched (update initState [mkDet 0 0] (1 / 25)).1.tracked_vehicles)
        50 0 (2 / 25) from rfl]
    rw [c8_findMatch]
  have hpd : processDet (2 / 25) (initFold (update initState [mkDet 0 0] (1 / 25)).1)
      (mkDet 50 0) =
      { old := [(1, c8Track)]
        upd := [(1, c8Track)]
        next_id := 2
        results := []
        alerts := [] } := by
    rw [processDet_matched_eq (2 / 25) (initFold (update initState [mkDet 0 0] (1 / 25)).1)
      (mkDet 50 0) (1, seedTrackU 1 0 0 (1 / 25)) hfm]
    rw [applyMatch_of_unchanged (2 / 25) (centroid (mkDet 50 0)).1
      (centroid (mkDet 50 0)).2 (mkDet 50 0).conf 1
      (seedTrackU 1 0 0 (1 / 25)) (initFold (update initState [mkDet 0 0] (1 / 25)).1)
      c8_speedAlert]
    rw [show (initFold (update initState [mkDet 0 0] (1 / 25)).1).old =
      markUnmatched (update initState [mkDet 0 0] (1 / 25)).1.tracked_vehicles from rfl,
      c8_mark1]
    rfl
  rw [show (update (update initState [mkDet 0 0] (1 / 25)).1 [mkDet 50 0] (2 / 25)).1 =
    ⟨keepStale (2 / 25)
      (processDet (2 / 25) (initFold (update initState [mkDet 0 0] (1 / 25)).1)
        (mkDet 50 0)).upd
      (processDet (2 / 25) (initFold (update initState [mkDet 0 0] (1 / 25)).1)
        (mkDet 50 0)).old,
     (processDet (2 / 25) (initFold (update initState [mkDet 0 0] (1 / 25)).1)
        (mkDet 50 0)).next_id⟩ from rfl]
  rw [hpd]
  rw [keepStale_eq_filter]
  rw [List.filter_cons_of_neg (by
    simp only [decide_eq_true_eq, not_and]
    intro hc
    cases hc)]
  rfl

/-- C8.  The constants give `PIXELS_PER_METER = 245 / 20 = 12.25`; a
50-pixel centroid displacement over the frame interval from `t = 1/25` to
`t = 2/25` yields the raw sample `(50 / 12.25) / (1/25) * 3.6 = 18000/49`
(≈ 367.3 km/h), which fails the plausibility band, so after the frame the
track's speed history is still empty and its speed still absent. -/
theorem C8_implausible_sample_rejected :
    PIXELS_PER_METER = 49 / 4 ∧
      speedSample 0 0 (1 / 25) 50 0 (2 / 25) = 50 / (12.25 : ℝ) / (1 / 25) * 3.6 ∧
      speedSample 0 0 (1 / 25) 50 0 (2 / 25) = 18000 / 49 ∧
      ¬((MIN_SPEED_THRESHOLD : ℝ) < speedSample 0 0 (1 / 25) 50 0 (2 / 25) ∧
        speedSample 0 0 (1 / 25) 50 0 (2 / 25) < (MAX_SPEED_THRESHOLD : ℝ)) ∧
      (update (update initState [mkDet 0 0] (1 / 25)).1 [mkDet 50 0] (2 / 25)).1 =
        ⟨[(1, c8Track)], 2⟩ ∧
      c8Track.speed_history = [] ∧ c8Track.speed = none := by
  refine ⟨?_, ?_, C8_sample_value, ?_, c8_state2, rfl, rfl⟩
  · norm_num [PIXELS_PER_METER, PIXELS_DASHED_LINE, DASHED_LINE_DISTANCE]
  · rw [C8_sample_value]
    norm_num
  · rw [C8_sample_value]
    norm_num [MIN_SPEED_THRESHOLD, MAX_SPEED_THRESHOLD]

/-! ## Evaluation of the Blob counterexample run -/

theorem blobMatchStep_matched (st : BlobState) (d : (ℤ × ℤ) × (ℤ × ℤ × ℤ × ℤ))
    (vs : List (ℕ × BVehicle))
    (h : blobMatchVehicle d.1 d.2 st.vehicles = some vs) :
    blobMatchStep st d = { st with vehicles := vs } := by
  unfold blobMatchStep
  rw [h]

theorem bMatch2 :
    blobMatchVehicle (20, 0) (0, 0, 0, 0) [(1, bV1)] = some [(1, bV2m)] := by
  rw [show blobMatchVehicle (20, 0) (0, 0, 0, 0) [(1, bV1)] =
    (if hypot 20 0 < 50 then some [(1, bV2m)] else none) from rfl]
  rw [hyp20]
  rw [if_pos (show (20 : ℝ) < 50 by norm_num)]

theorem bMatch3 :
    blobMatchVehicle (40, 0) (0, 0, 0, 0) [(1, bV2)] = some [(1, bV3)] := by
  rw [show blobMatchVehicle (40, 0) (0, 0, 0, 0) [(1, bV2)] =
    (if hypot 20 0 < 50 then some [(1, bV3)] else none) from rfl]
  rw [hyp20]
  rw [if_pos (show (20 : ℝ) < 50 by norm_num)]

theorem bSpeed180 : estimate_speed (hypot 20 0 * (1 / 10)) (1 / 25) = 180 := by
  unfold estimate_speed
  rw [if_neg (show ((1 : ℝ) / 25) ≠ 0 by norm_num)]
  rw [hyp20]
  norm_num

theorem bStep2 (acc : BlobState) :
    blobSpeedStep acc (1, bV2m) =
      { acc with
        vehicles := acc.vehicles ++ [(1, bV2)]
        speed_violations_count := acc.speed_violations_count + 1
        high_speed_alerts := acc.high_speed_alerts ++ [⟨1, 180⟩] } := by
  have h1 : blobSpeedStep acc (1, bV2m) =
      (let sp := estimate_speed (hypot 20 0 * (1 / 10)) (1 / 25)
       let v2 : BVehicle := { bV2m with speed_kmh := sp }
       let acc1 := { acc with vehicles := acc.vehicles ++ [(1, v2)] }
       let acc2 :=
         if (90 : ℝ) < sp then
           { acc1 with speed_violations_count := acc1.speed_violations_count + 1 }
         else acc1
       if 130 < sp then
         { acc2 with high_speed_alerts := acc2.high_speed_alerts ++ [⟨1, sp⟩] }
       else acc2) := rfl
  rw [h1, bSpeed180]
  dsimp only
  rw [if_pos (show (90 : ℝ) < 180 by norm_num),
    if_pos (show (130 : ℝ) < 180 by norm_num)]
  rfl

theorem bStep3 (acc : BlobState) :
    blobSpeedStep acc (1, bV3) =
      { acc with
        vehicles := acc.vehicles ++ [(1, bV3)]
        speed_violations_count := acc.speed_violations_count + 1
        high_speed_alerts := acc.high_speed_alerts ++ [⟨1, 180⟩] } := by
  have h1 : blobSpeedStep acc (1, bV3) =
      (let sp := estimate_speed (hypot 20 0 * (1 / 10)) (1 / 25)
       let v2 : BVehicle := { bV3 with speed_kmh := sp }
       let acc1 := { acc with vehicles := acc.vehicles ++ [(1, v2)] }
       let acc2 :=
         if (90 : ℝ) < sp then
           { acc1 with speed_violations_count := acc1.speed_violations_count + 1 }
         else acc1
       if 130 < sp then
         { acc2 with high_speed_alerts := acc2.high_speed_alerts ++ [⟨1, sp⟩] }
       else acc2) := rfl
  rw [h1, bSpeed180]
  dsimp only
  rw [if_pos (show (90 : ℝ) < 180 by norm_num),
    if_pos (show (130 : ℝ) < 180 by norm_num)]
  rfl

theorem bMatchStep2 :
    blobMatchStep ⟨[(1, bV1)], 1, 0, []⟩ (bDet 20 0) = ⟨[(1, bV2m)], 1, 0, []⟩ := by
  rw [blobMatchStep_matched ⟨[(1, bV1)], 1, 0, []⟩ (bDet 20 0) [(1, bV2m)] bMatch2]

theorem bMatchStep3 :
    blobMatchStep ⟨[(1, bV2)], 1, 1, [⟨1, 180⟩]⟩ (bDet 40 0) =
      ⟨[(1, bV3)], 1, 1, [⟨1, 180⟩]⟩ := by
  rw [blobMatchStep_matched ⟨[(1, bV2)], 1, 1, [⟨1, 180⟩]⟩ (bDet 40 0) [(1, bV3)]
    bMatch3]

theorem bFrame1 : blobFrame blobInit [bDet 0 0] = ⟨[(1, bV1)], 1, 0, []⟩ := rfl

theorem bFrame2 :
    blobFrame ⟨[(1, bV1)], 1, 0, []⟩ [bDet 20 0] = ⟨[(1, bV2)], 1, 1, [⟨1, 180⟩]⟩ := by
  rw [show blobFrame ⟨[(1, bV1)], 1, 0, []⟩ [bDet 20 0] =
    (blobMatchStep ⟨[(1, bV1)], 1, 0, []⟩ (bDet 20 0)).vehicles.foldl blobSpeedStep
      { blobMatchStep ⟨[(1, bV1)], 1, 0, []⟩ (bDet 20 0) with vehicles := [] }
      from rfl]
  rw [bMatchStep2]
  rw [show ((⟨[(1, bV2m)], 1, 0, []⟩ : BlobState)).vehicles.foldl blobSpeedStep
      { (⟨[(1, bV2m)], 1, 0, []⟩ : BlobState) with vehicles := [] } =
    blobSpeedStep ⟨[], 1, 0, []⟩ (1, bV2m) from rfl]
  rw [bStep2 ⟨[], 1, 0, []⟩]
  rfl

theorem bFrame3 :
    blobFrame ⟨[(1, bV2)], 1, 1, [⟨1, 180⟩]⟩ [bDet 40 0] =
      ⟨[(1, bV3)], 1, 2, [⟨1, 180⟩, ⟨1, 180⟩]⟩ := by
  rw [show blobFrame ⟨[(1, bV2)], 1, 1, [⟨1, 180⟩]⟩ [bDet 40 0] =
    (blobMatchStep ⟨[(1, bV2)], 1, 1, [⟨1, 180⟩]⟩ (bDet 40 0)).vehicles.foldl
      blobSpeedStep
      { blobMatchStep ⟨[(1, bV2)], 1, 1, [⟨1, 180⟩]⟩ (bDet 40 0) with
        vehicles := [] } from rfl]
  rw [bMatchStep3]
  rw [show ((⟨[(1, bV3)], 1, 1, [⟨1, 180⟩]⟩ : BlobState)).vehicles.foldl blobSpeedStep
      { (⟨[(1, bV3)], 1, 1, [⟨1, 180⟩]⟩ : BlobState) with vehicles := [] } =
    blobSpeedStep ⟨[], 1, 1, [⟨1, 180⟩]⟩ (1, bV3) from rfl]
  rw [bStep3 ⟨[], 1, 1, [⟨1, 180⟩]⟩]
  rfl

/-- C3 counterexample.  The Blob variant's alert push (Blob processing.py
lines 118-121) has no latch: one vehicle moving 20 px per frame (180 km/h
under the variant's scale) for three frames produces an alert for vehicle
1 at frame 2 and again at frame 3 — two alerts for one track, refuting
the at-most-one-alert-per-track claim for this cited variant. -/
theorem C3_counterexample :
    blobRun blobInit blobFrames3 = ⟨[(1, bV3)], 1, 2, [⟨1, 180⟩, ⟨1, 180⟩]⟩ ∧
      ((blobRun blobInit blobFrames3).high_speed_alerts.countP
        fun a => a.id == 1) = 2 := by
  have hrun : blobRun blobInit blobFrames3 =
      ⟨[(1, bV3)], 1, 2, [⟨1, 180⟩, ⟨1, 180⟩]⟩ := by
    rw [show blobRun blobInit blobFrames3 =
      blobFrame (blobFrame (blobFrame blobInit [bDet 0 0]) [bDet 20 0]) [bDet 40 0]
        from rfl]
    rw [bFrame1, bFrame2, bFrame3]
  refine ⟨hrun, ?_⟩
  rw [hrun]
  rfl

/-! ## Witnesses for the claims with hypotheses -/

/-- Witness for C4, at the one-track state after a single frame. -/
theorem C4_speed_invariant_witness :
    (seedTrack 1 0 0 1).speed_history.length ≤ SPEED_SMOOTHING_WINDOW ∧
      ((seedTrack 1 0 0 1).speed = none ↔ (seedTrack 1 0 0 1).speed_history = []) := by
  have h := C4_speed_invariant wState (Reachable.step [mkDet 0 0] 1 Reachable.init)
    (1, seedTrack 1 0 0 1) (by
      rw [wState_eq]
      exact List.mem_singleton.mpr rfl)
  exact ⟨h.1, h.2.1⟩

/-- The state after a frame at `t = 1` and an empty frame at `t = 10`:
track 1 is pruned, the counter stays at 2. -/
theorem w10_eq :
    stateAt initState ([([mkDet 0 0], 1)] ++ [([], 10)]) =
      ⟨[], 2⟩ := by
  rw [show stateAt initState ([([mkDet 0 0], 1)] ++ [([], 10)]) =
    (update (update initState [mkDet 0 0] 1).1 [] 10).1 from rfl]
  rw [show (update (update initState [mkDet 0 0] 1).1 [] 10).1 =
    ⟨keepStale 10 [] (markUnmatched (update initState [mkDet 0 0] 1).1.tracked_vehicles),
     (update initState [mkDet 0 0] 1).1.next_id⟩ from rfl]
  rw [show markUnmatched (update initState [mkDet 0 0] 1).1.tracked_vehicles =
    [(1, seedTrackU 1 0 0 1)] from rfl]
  rw [keepStale_eq_filter]
  rw [List.filter_cons_of_neg (by
    simp only [decide_eq_true_eq, not_and]
    intro _
    norm_num [seedTrackU])]
  rfl

/-- Witness for C5: after track 1 (allocated at `t = 1`) is pruned by the
empty frame at `t = 10`, a detection at `t = 11` receives the brand-new
id 2 — an id never present in the first state of the run. -/
theorem C5_ids_monotone_fresh_witness :
    (2 : ℕ) ∉ trackedIds (stateAt initState [([mkDet 0 0], 1)]) := by
  refine (C5_ids_monotone_fresh [([mkDet 0 0], 1)] [([], 10)]).2.2.2
    [mkDet 5 5] 11 2 ?_ ?_
  · rw [w10_eq]
    exact List.mem_singleton.mpr rfl
  · rw [w10_eq]
    simp [trackedIds, idsOf]

/-- Witness for C7: the track from `t = 1` is unmatched at `t = 5`, and
`5 - 1 ≥ 3`, so it is pruned from the new state. -/
theorem C7_prune_exact_witness :
    (seedTrackU 1 0 0 1).matched = false ∧ ¬((5 : ℚ) - 1 < 3) ∧
      (1, seedTrackU 1 0 0 1) ∉ (update wState [] 5).1.tracked_vehicles := by
  refine ⟨rfl, by norm_num, ?_⟩
  have hmem0 : (1, seedTrackU 1 0 0 1) ∈ (matchPhase 5 wState []).old := by
    rw [show (matchPhase 5 wState []).old =
      markUnmatched wState.tracked_vehicles from rfl]
    rw [show markUnmatched wState.tracked_vehicles = [(1, seedTrackU 1 0 0 1)] from rfl]
    exact List.mem_singleton.mpr rfl
  intro hmem
  have h := (C7_prune_exact wState (Reachable.step [mkDet 0 0] 1 Reachable.init) [] 5
    (1, seedTrackU 1 0 0 1) hmem0).2 rfl
  have h2 := h.mp hmem
  norm_num [seedTrackU] at h2

/-- Witness for C9: the ready track emits a record, and its direction is
the spec's dominant-axis rule applied to the displacement (5, 0). -/
theorem C9_direction_dominant_axis_witness :
    emitResult 7 emitReadyTrack 5 0 (2 / 5) 1 =
        some ⟨7, "car", "outbound", 36, 2 / 5, (5, 0), 1⟩ ∧
      "outbound" = specDirection 5 0 := by
  have he : emitResult 7 emitReadyTrack 5 0 (2 / 5) 1 =
      some ⟨7, "car", "outbound", 36, 2 / 5, (5, 0), 1⟩ := rfl
  refine ⟨he, ?_⟩
  exact C9_direction_dominant_axis 7 emitReadyTrack 5 0 (2 / 5) 1
    ⟨7, "car", "outbound", 36, 2 / 5, (5, 0), 1⟩ he

/-- Witness for C10: two identical detections in one frame on a fresh
tracker are routed to the two distinct ids 1 and 2. -/
theorem C10_one_track_per_detection_witness :
    (affectedIds 1 (initFold initState) [mkDet 0 0, mkDet 0 0]).Nodup ∧
      affectedIds 1 (initFold initState) [mkDet 0 0, mkDet 0 0] = [1, 2] := by
  refine ⟨(C10_one_track_per_detection initState [mkDet 0 0, mkDet 0 0] 1 ?_).1, rfl⟩
  intro p hp
  exact absurd hp (List.not_mem_nil p)

end Traffic
